import Mathlib

/-!
Verification development for the `grades` tabular document engine.

The embedding models `src/document.py` (the `Document` class: typed source
columns stored in a pandas `DataFrame`, a formula map for computed columns,
the retry-queue formula engine `compute`, JSON persistence `save` /
`from_dict` / `from_file`) and the inline JSON schema of `src/main.py`.

Modelling conventions:
- pandas cells are `Cell = Option Val`; `none` stands uniformly for the
  absent / `NaN` / `None` cell (this is the NaN-null normalization the
  persistence layer performs via `clean_nan`).
- Python float values are modelled as integers `Int`: the formula
  fragment embedded here (`+ - *`, `abs`) is closed over the integers, and
  float64 rounding/precision is out of the model's scope.
- A pandas column is its dtype (`float64` ↦ `CKind.number`,
  `object` ↦ `CKind.string`) together with a total cell function
  `String → Cell`; a cell is meaningful only at row keys in the
  document's index, and every constructor below yields `none` off-index,
  mirroring how pandas fills `NaN` on alignment or enlargement.
- Formula strings are modelled by the abstract syntax `Formula` of the
  restricted vectorized expression language the documents use
  (column identifiers, numeric literals, `+ - *`, elementwise `abs`);
  `eval`'s left-to-right name lookup is mirrored by `evalExpr`, and
  Python's `NameError` by `EvalErr.nameErr`.  Arithmetic on an
  `object`-dtype (string) column raises `TypeError` in pandas; the model
  returns `EvalErr.typeErr` there.
- All operations are pure: code that mutates `self` in place becomes a
  function returning `Except DErr Doc`, and an error result corresponds
  to an exception raised before any mutation, so the caller's document is
  unchanged exactly when the model returns `.error`.
-/

/-- A scalar cell payload: a number (pandas `float64`) or a string. -/
inductive Val where
  | num (n : Int)
  | str (s : String)
  deriving DecidableEq

/-- A pandas cell: `none` is the normalized absent/NaN/None cell. -/
abbrev Cell := Option Val

/-- Column dtype: `number` is pandas `float64`, `string` is `object`. -/
inductive CKind where
  | number
  | string
  deriving DecidableEq

/-- A column: its dtype plus its cells, as a total function on row keys
(meaningful on the document index, `none` elsewhere). -/
structure Col where
  kind : CKind
  cells : String → Cell

/-- A data frame: named columns in order, as in `pandas.DataFrame`. -/
abbrev DF := List (String × Col)

/-- First-match association lookup (Python `dict` / frame column access). -/
def assocFind {α : Type} (k : String) : List (String × α) → Option α
  | [] => none
  | (k₂, v) :: rest => if k = k₂ then some v else assocFind k rest

/-- The list of keys of an association list. -/
def keysOf {α : Type} (l : List (String × α)) : List String :=
  l.map Prod.fst

/-- Replace every binding of a key by a new value, in place. -/
def assocReplace {α : Type} (n : String) (c : α) : List (String × α) → List (String × α)
  | [] => []
  | (k, v) :: rest =>
    if k = n then (n, c) :: assocReplace n c rest else (k, v) :: assocReplace n c rest

/-- Setting `df[name] = col`: replace the column in place if the name
exists, append it otherwise (pandas `__setitem__` on a frame). -/
def dfSet (df : DF) (name : String) (c : Col) : DF :=
  if (assocFind name df).isSome then assocReplace name c df
  else df ++ [(name, c)]

/-- Abstract syntax of a formula string: identifiers denote whole columns,
arithmetic is vectorized, `fabs` is the elementwise builtin `abs`. -/
inductive Formula where
  | const (n : Int)
  | ident (x : String)
  | add (a b : Formula)
  | sub (a b : Formula)
  | mul (a b : Formula)
  | fabs (e : Formula)
  deriving DecidableEq

/-- The column identifiers referenced by a formula, in evaluation order. -/
def Formula.idents : Formula → List String
  | .const _ => []
  | .ident x => [x]
  | .add a b => a.idents ++ b.idents
  | .sub a b => a.idents ++ b.idents
  | .mul a b => a.idents ++ b.idents
  | .fabs e => e.idents

/-- Errors of one formula evaluation: Python `NameError` with the failed
name, or `TypeError` from arithmetic on an `object` (string) column. -/
inductive EvalErr where
  | nameErr (x : String)
  | typeErr
  deriving DecidableEq

/-- An intermediate evaluation value: a whole column or a scalar
(a scalar broadcasts over the index when materialized, as in pandas). -/
inductive EvalVal where
  | col (c : Col)
  | scalar (n : Int)

/-- Elementwise numeric combination of two cells; NaN propagates. -/
def cellOp (op : Int → Int → Int) : Cell → Cell → Cell
  | some (.num a), some (.num b) => some (.num (op a b))
  | _, _ => none

/-- A constant (broadcast) numeric column. -/
def constCol (n : Int) : Col :=
  { kind := .number, cells := fun _ => some (.num n) }

/-- Vectorized arithmetic on evaluation values; arithmetic on an
`object`-dtype column is a pandas `TypeError`. -/
def vArith (op : Int → Int → Int) : EvalVal → EvalVal → Except EvalErr EvalVal
  | .scalar a, .scalar b => .ok (.scalar (op a b))
  | .col c, .scalar b =>
    if c.kind = .string then .error .typeErr
    else .ok (.col { kind := .number, cells := fun r => cellOp op (c.cells r) (some (.num b)) })
  | .scalar a, .col c =>
    if c.kind = .string then .error .typeErr
    else .ok (.col { kind := .number, cells := fun r => cellOp op (some (.num a)) (c.cells r) })
  | .col c₁, .col c₂ =>
    if c₁.kind = .string ∨ c₂.kind = .string then .error .typeErr
    else .ok (.col { kind := .number, cells := fun r => cellOp op (c₁.cells r) (c₂.cells r) })

/-- Elementwise absolute value of a cell; NaN propagates. -/
def cellAbs : Cell → Cell
  | some (.num a) => some (.num (a.natAbs : Int))
  | _ => none

/-- The elementwise builtin `abs` on an evaluation value. -/
def vAbs : EvalVal → Except EvalErr EvalVal
  | .scalar a => .ok (.scalar (a.natAbs : Int))
  | .col c =>
    if c.kind = .string then .error .typeErr
    else .ok (.col { kind := .number, cells := fun r => cellAbs (c.cells r) })

/-- Evaluation of a formula against the current columns of a frame
(`eval(self.__computed[name], ns)` with `ns` holding every column):
name lookups happen left to right, and the first unresolved identifier
raises `NameError` carrying that name. -/
def evalExpr (df : DF) : Formula → Except EvalErr EvalVal
  | .const q => .ok (.scalar q)
  | .ident x =>
    match assocFind x df with
    | some c => .ok (.col c)
    | none => .error (.nameErr x)
  | .add a b => do vArith (· + ·) (← evalExpr df a) (← evalExpr df b)
  | .sub a b => do vArith (· - ·) (← evalExpr df a) (← evalExpr df b)
  | .mul a b => do vArith (· * ·) (← evalExpr df a) (← evalExpr df b)
  | .fabs e => do vAbs (← evalExpr df e)

/-- Materializing an evaluation result as the new frame column
(`df[name] = eval(...)`): a scalar broadcasts to a numeric column. -/
def toCol : EvalVal → Col
  | .col c => c
  | .scalar n => constCol n

/-- Errors raised by `Document` operations.  The Python exceptions map as:
`ValueError` from `validate_column_name` ↦ `invalidName`; `ValueError`
"Values must be all the same type" ↦ `typeMix`; `IndexError` from
`add_row` ↦ `duplicateRow`; `IndexError` on computed-cell writes ↦
`readOnlyColumn`; `KeyError` on a missing column ↦ `notFound`;
re-raised `NameError` ↦ `undefinedName`; `TypeError` ↦ `typeMismatch`;
`CyclicDependencyError` ↦ `cyclicDependency`; a `jsonschema`
`ValidationError` ↦ `schemaViolation`; the pandas `ValueError`
"cannot set a frame with no defined columns" raised by `.loc`
row-enlargement on a column-less frame ↦ `noColumns`. -/
inductive DErr where
  | invalidName
  | typeMix
  | duplicateRow
  | noColumns
  | readOnlyColumn
  | notFound
  | undefinedName (x : String)
  | typeMismatch
  | cyclicDependency
  | schemaViolation
  deriving DecidableEq

/-- Python `str.isidentifier` (ASCII fragment): nonempty, first character
alphabetic or underscore, rest alphanumeric or underscore. -/
def isidentifier (s : String) : Bool :=
  match s.data with
  | [] => false
  | c :: rest => (c.isAlpha || c == '_') && rest.all (fun d => d.isAlphanum || d == '_')

/-- The in-memory document: metadata, the shared row index, the source
frame, and the computed-formula map (insertion-ordered, like a `dict`). -/
structure Doc where
  title : String
  course : String
  code : String
  date : String
  filename : Option String
  index : List String
  source : List (String × Col)
  computed : List (String × Formula)

/-- `Document(title, course, code, date)`: empty frame, empty formula map. -/
def Doc.init (title course code date : String) : Doc :=
  { title := title, course := course, code := code, date := date,
    filename := none, index := [], source := [], computed := [] }

/-- The names of the source columns, in frame order. -/
def Doc.sourceNames (doc : Doc) : List String :=
  keysOf doc.source

/-- The names of the computed columns, in map-insertion order. -/
def Doc.computedNames (doc : Doc) : List String :=
  keysOf doc.computed

/-- `column_names`: source names then computed names. -/
def Doc.column_names (doc : Doc) : List String :=
  doc.sourceNames ++ doc.computedNames

/-- Is the value numeric (`isinstance(value, (float, int))`)? -/
def Val.isNum : Val → Bool
  | .num _ => true
  | .str _ => false

/-- Is the value a string (`isinstance(value, str)`)? -/
def Val.isStr : Val → Bool
  | .num _ => false
  | .str _ => true

/-- Is the cell numeric or null (`isinstance(value, (float, int, NoneType))`)? -/
def cellNumOrNull : Cell → Bool
  | none => true
  | some (.num _) => true
  | some (.str _) => false

/-- Is the cell a string or null (`isinstance(value, (str, NoneType))`)? -/
def cellStrOrNull : Cell → Bool
  | none => true
  | some (.str _) => true
  | some (.num _) => false

/-- `Document.add_source_column(name, column)`.  The name must be a valid
identifier (`ValueError` otherwise); row keys are strings by typing, so the
`all(isinstance(index, str))` guard always passes.  If every value is
numeric or null the column is stored with dtype `float64`; otherwise, if
every value is a string or null, with dtype `object`; otherwise
`ValueError`.  Assigning the resulting `Series` into the frame aligns it on
the existing index (missing keys become NaN, extra keys are dropped),
except that a frame with an empty index adopts the series' index; an
existing column of the same name is replaced in place. -/
def Doc.add_source_column (doc : Doc) (name : String) (rows : List (String × Cell)) :
    Except DErr Doc :=
  if !isidentifier name then .error .invalidName
  else if rows.all (fun p => cellNumOrNull p.2) then
    .ok { doc with
          index := if doc.index = [] ∧ rows ≠ [] then keysOf rows else doc.index,
          source := dfSet doc.source name
            { kind := .number, cells := fun r => (assocFind r rows).getD none } }
  else if rows.all (fun p => cellStrOrNull p.2) then
    .ok { doc with
          index := if doc.index = [] ∧ rows ≠ [] then keysOf rows else doc.index,
          source := dfSet doc.source name
            { kind := .string, cells := fun r => (assocFind r rows).getD none } }
  else .error .typeMix

/-- `Document.add_computed_column(name, formula)`: validates the name, then
`self.__computed[name] = formula` (replace in place or append). -/
def Doc.add_computed_column (doc : Doc) (name : String) (f : Formula) :
    Except DErr Doc :=
  if !isidentifier name then .error .invalidName
  else
    .ok { doc with
          computed :=
            if (assocFind name doc.computed).isSome then
              assocReplace name f doc.computed
            else
              doc.computed ++ [(name, f)] }

/-- `Document.add_row(index)`: `IndexError` on a duplicate index, then
`self.__source.loc[index] = {col: None for col in columns}` — on a frame
with no columns pandas raises `ValueError("cannot set a frame with no
defined columns")` before any mutation; otherwise the row is appended to
the index and every existing source column gets a null cell. -/
def Doc.add_row (doc : Doc) (r : String) : Except DErr Doc :=
  if r ∈ doc.index then .error .duplicateRow
  else if keysOf doc.source = [] then .error .noColumns
  else
    .ok { doc with
          index := doc.index ++ [r],
          source := doc.source.map (fun p =>
            (p.1, { kind := p.2.kind,
                    cells := fun x => if x = r then none else p.2.cells x })) }

/-- `Document.set_formula(name, formula)`: `IndexError` unless `name` is a
computed column, else replace the formula text in place. -/
def Doc.set_formula (doc : Doc) (name : String) (f : Formula) : Except DErr Doc :=
  if (assocFind name doc.computed).isSome then
    .ok { doc with
          computed := assocReplace name f doc.computed }
  else .error .notFound

/-- `Document.formula(name)`: the formula text of a computed column. -/
def Doc.formula (doc : Doc) (name : String) : Except DErr Formula :=
  match assocFind name doc.computed with
  | some f => .ok f
  | none => .error .notFound

/-- `Document.is_computed(column)`. -/
def Doc.is_computed (doc : Doc) (name : String) : Bool :=
  (assocFind name doc.computed).isSome

/-- The loop body of `Document.compute`, fuel-indexed.  The Python loop
keeps a counter and raises `CyclicDependencyError` when
`count > max_iter` with the queue still nonempty; here
`fuel = max_iter + 1 - count`, so that check is exactly `fuel = 0`.
Each iteration pops the front entry and evaluates its formula against the
working frame: on success the result is materialized
(`df[name] = eval(...)`); on `NameError` naming a known computed column
the entry is pushed to the back of the queue; on any other `NameError`
the error is re-raised; a `TypeError` propagates. -/
def computeAux (cnames : List String) : Nat → DF → List (String × Formula) → Except DErr DF
  | _, df, [] => .ok df
  | 0, _, _ :: _ => .error .cyclicDependency
  | fuel + 1, df, (name, f) :: rest =>
    match evalExpr df f with
    | .ok v => computeAux cnames fuel (dfSet df name (toCol v)) rest
    | .error (.nameErr x) =>
      if x ∈ cnames then computeAux cnames fuel df (rest ++ [(name, f)])
      else .error (.undefinedName x)
    | .error .typeErr => .error .typeMismatch

/-- `Document.compute()`: work on a copy of the source frame, seed the
queue with all computed columns in map order, `max_iter = n ** 2`. -/
def Doc.compute (doc : Doc) : Except DErr DF :=
  computeAux doc.computedNames (doc.computed.length ^ 2 + 1) doc.source doc.computed

/-- The number of `__compute_column` evaluation attempts a run performs
(the aborting attempt of a re-raised `NameError` or a `TypeError` counts
as one); mirrors the branching of `computeAux` exactly. -/
def attemptsAux (cnames : List String) : Nat → DF → List (String × Formula) → Nat
  | _, _, [] => 0
  | 0, _, _ :: _ => 0
  | fuel + 1, df, (name, f) :: rest =>
    match evalExpr df f with
    | .ok v => 1 + attemptsAux cnames fuel (dfSet df name (toCol v)) rest
    | .error (.nameErr x) =>
      if x ∈ cnames then 1 + attemptsAux cnames fuel df (rest ++ [(name, f)])
      else 1
    | .error .typeErr => 1

/-- The number of evaluation attempts performed by `Document.compute()`. -/
def Doc.computeAttempts (doc : Doc) : Nat :=
  attemptsAux doc.computedNames (doc.computed.length ^ 2 + 1) doc.source doc.computed

/-- `Document.column(name)`: evaluate, project one column, `to_dict()`
over the frame index (`KeyError` on an unknown name). -/
def Doc.column (doc : Doc) (name : String) : Except DErr (List (String × Cell)) :=
  match doc.compute with
  | .error e => .error e
  | .ok df =>
    match assocFind name df with
    | some c => .ok (doc.index.map (fun r => (r, c.cells r)))
    | none => .error .notFound

/-- `Document.column_type(name)`: `"number"` iff the evaluated column's
dtype is `float64`. -/
def Doc.column_type (doc : Doc) (name : String) : Except DErr CKind :=
  match doc.compute with
  | .error e => .error e
  | .ok df =>
    match assocFind name df with
    | some c => .ok c.kind
    | none => .error .notFound

/-- `Document.index(row)`: evaluate and project one row as a mapping. -/
def Doc.rowDict (doc : Doc) (r : String) : Except DErr (List (String × Cell)) :=
  match doc.compute with
  | .error e => .error e
  | .ok df => .ok (df.map (fun p => (p.1, p.2.cells r)))

/-- `Document.__setitem__((row, column), value)`.  For an existing source
column the value's runtime type must match the dtype (`TypeError`
otherwise), then the cell is written (enlarging the index if the row is
new).  Otherwise the name is validated, writes to computed columns are
rejected (`IndexError`), and a fresh source column is created holding the
value at that row, null elsewhere, with dtype inferred from the value. -/
def Doc.setCell (doc : Doc) (r c : String) (v : Val) : Except DErr Doc :=
  match assocFind c doc.source with
  | some col =>
    if col.kind == .number && !v.isNum then .error .typeMismatch
    else if col.kind == .string && !v.isStr then .error .typeMismatch
    else
      .ok { doc with
            index := if r ∈ doc.index then doc.index else doc.index ++ [r],
            source := assocReplace c
              { kind := col.kind, cells := fun x => if x = r then some v else col.cells x }
              doc.source }
  | none =>
    if !isidentifier c then .error .invalidName
    else if (assocFind c doc.computed).isSome then .error .readOnlyColumn
    else
      .ok { doc with
            index := if r ∈ doc.index then doc.index else doc.index ++ [r],
            source := doc.source ++
              [(c, { kind := match v with | .num _ => .number | .str _ => .string,
                     cells := fun x => if x = r then some v else none })] }

/-- One column entry of the persisted JSON file: a source column carries
its name, `dtype` tag and `rows` object (values already NaN-normalized to
null, i.e. `Cell`); a computed column carries its name and formula text. -/
inductive SavedCol where
  | source (name : String) (dtype : CKind) (rows : List (String × Cell))
  | computed (name : String) (f : Formula)
  deriving DecidableEq

/-- The persisted JSON document: metadata plus the column entries, in file
order.  `json.dump` / `json.load` round-trip this structure verbatim, so
the file on disk is identified with this value. -/
structure SaveData where
  title : String
  course : String
  code : String
  date : String
  columns : List SavedCol
  deriving DecidableEq

/-- Modelled from the spec: `document.py` validates a loaded dict against
`schema.json`, a repository file that is not under `src/` (only its
loading site `with open("schema.json")` is).  Per spec §4.2 the schema
requires the metadata keys and, per column entry, `name` and
`type ∈ {source, computed}`; a source entry needs `dtype ∈ {number,
string}` and `rows` whose values are all numeric-or-null
(`dtype = number`) or all string-or-null (`dtype = string`); a computed
entry needs `formula`.  The structural requirements are enforced by the
typing of `SaveData`; the value-level row checks are tested here. -/
def specValidate (d : SaveData) : Bool :=
  d.columns.all fun c =>
    match c with
    | .source _ dtype rows =>
      match dtype with
      | .number => rows.all (fun p => cellNumOrNull p.2)
      | .string => rows.all (fun p => cellStrOrNull p.2)
    | .computed _ _ => true

/-- Sequential mapping over `Except` (the loop of `Document.save` that
serializes each source column; the first failure propagates). -/
def mapExcept {α β : Type} (f : α → Except DErr β) : List α → Except DErr (List β)
  | [] => .ok []
  | a :: rest =>
    match f a with
    | .error e => .error e
    | .ok b =>
      match mapExcept f rest with
      | .error e => .error e
      | .ok bs => .ok (b :: bs)

/-- Sequential fold over `Except` (the column loop of
`Document.from_dict`; the first failure propagates). -/
def foldE {σ α : Type} (f : σ → α → Except DErr σ) : σ → List α → Except DErr σ
  | s, [] => .ok s
  | s, a :: rest =>
    match f s a with
    | .error e => .error e
    | .ok s₂ => foldE f s₂ rest

/-- `Document.save`: every source column is written out with its
post-evaluation dtype (`column_type`) and its fully evaluated rows
(`dict(self.column(name))` passed through `clean_nan`, which is the
NaN ↦ null normalization and is the identity on `Cell`); every computed
column is written as its formula text; metadata and the ISO datetime
are copied.  Any evaluation failure propagates. -/
def Doc.save (doc : Doc) : Except DErr SaveData :=
  match mapExcept (fun p => do
      let k ← doc.column_type p.1
      let rows ← doc.column p.1
      pure (SavedCol.source p.1 k rows)) doc.source with
  | .error e => .error e
  | .ok src =>
    .ok { title := doc.title, course := doc.course, code := doc.code, date := doc.date,
          columns := src ++ doc.computed.map (fun p => SavedCol.computed p.1 p.2) }

/-- One step of `Document.from_dict`'s column loop: a `source` entry is
added via `add_source_column` (its `dtype` tag is not consulted — the
kind is re-inferred from the values), a `computed` entry via
`add_computed_column`. -/
def fromDictStep (doc : Doc) (c : SavedCol) : Except DErr Doc :=
  match c with
  | .source n _ rows => doc.add_source_column n rows
  | .computed n f => doc.add_computed_column n f

/-- `Document.from_dict`: schema-validate, construct the document from the
metadata (ISO datetime parsing round-trips `isoformat`, so the date is
carried as its string), then add each column in file order. -/
def Doc.from_dict (d : SaveData) : Except DErr Doc :=
  if !specValidate d then .error .schemaViolation
  else foldE fromDictStep (Doc.init d.title d.course d.code d.date) d.columns

/-- `Document.from_file(path)`: load the JSON (identified with the
`SaveData` it parses to), `from_dict`, then record the filename. -/
def Doc.from_file (d : SaveData) (path : String) : Except DErr Doc :=
  (Doc.from_dict d).map (fun doc => { doc with filename := some path })

/-- The documents constructible through the public `Document` API: a
fresh document (`Document(title, course, code, date)` / `Document.new()`),
the successful result of any mutating operation on a constructible
document, or a successful file load. -/
inductive Reachable : Doc → Prop where
  | init (title course code date : String) : Reachable (Doc.init title course code date)
  | add_source (d : Doc) (n : String) (rows : List (String × Cell)) (d' : Doc) :
      Reachable d → d.add_source_column n rows = .ok d' → Reachable d'
  | add_computed (d : Doc) (n : String) (f : Formula) (d' : Doc) :
      Reachable d → d.add_computed_column n f = .ok d' → Reachable d'
  | add_row (d : Doc) (r : String) (d' : Doc) :
      Reachable d → d.add_row r = .ok d' → Reachable d'
  | set_formula (d : Doc) (n : String) (f : Formula) (d' : Doc) :
      Reachable d → d.set_formula n f = .ok d' → Reachable d'
  | set_cell (d : Doc) (r c : String) (v : Val) (d' : Doc) :
      Reachable d → d.setCell r c v = .ok d' → Reachable d'
  | from_file (data : SaveData) (path : String) (d' : Doc) :
      Doc.from_file data path = .ok d' → Reachable d'

/-- A JSON value, for the `jsonschema` fragment used by `src/main.py`. -/
inductive JVal where
  | null
  | num (n : Int)
  | str (s : String)
  | bool (b : Bool)
  | obj (fields : List (String × JVal))
  | arr (elems : List JVal)

/-- JSON Schema `{"type": "number"}` (booleans are excluded). -/
def isNumJ : JVal → Bool
  | .num _ => true
  | _ => false

/-- JSON Schema `{"type": "string"}`. -/
def isStrJ : JVal → Bool
  | .str _ => true
  | _ => false

/-- JSON Schema `{"type": "object"}`. -/
def isObjJ : JVal → Bool
  | .obj _ => true
  | _ => false

/-- Is this JSON value the given string constant? -/
def isConstStr (j : JVal) (s : String) : Bool :=
  match j with
  | .str t => t == s
  | _ => false

/-- Does the `patternProperties` regex `"^.+$"` of `src/main.py`'s schema
match a key?  It requires at least one character (modelled without the
regex's newline subtleties, which no row key in this code base exercises). -/
def patMatch (k : String) : Bool :=
  k != ""

/-- Does an optional field satisfy a check when present?  (JSON Schema
`properties` constrains only keys that are present.) -/
def fieldOk (fields : List (String × JVal)) (k : String) (check : JVal → Bool) : Bool :=
  match assocFind k fields with
  | some v => check v
  | none => true

/-- JSON Schema `required`. -/
def hasField (fields : List (String × JVal)) (k : String) : Bool :=
  (assocFind k fields).isSome

/-- The `rows` check of the `then`/`else` branches of the inner `if` of
`src/main.py`'s schema: every property whose key matches `"^.+$"` must
satisfy the value check. -/
def rowsPatternOk (fields : List (String × JVal)) (check : JVal → Bool) : Bool :=
  fieldOk fields "rows" fun v =>
    match v with
    | .obj rfs => rfs.all (fun p => !patMatch p.1 || check p.2)
    | _ => true

/-- The per-item schema of `src/main.py`'s inline `schema` (`columns`'
`items`): an object with required `name` (string) and `type`
(enum `source`/`computed`); if `type` is `source` (the `if`/`then`
branch), `rows` (object) and `dtype` (enum `number`/`string`) are
required, and the nested `if`/`then`/`else` constrains every `rows`
value to be a JSON number when `dtype` is `number`, and a JSON string
otherwise; if `type` is not `source` (the outer `else`), `formula`
(string) is required. -/
def columnItemValid (j : JVal) : Bool :=
  match j with
  | .obj fs =>
    fieldOk fs "name" isStrJ &&
    fieldOk fs "type" (fun v => isConstStr v "source" || isConstStr v "computed") &&
    hasField fs "name" && hasField fs "type" &&
    (if fieldOk fs "type" (fun v => isConstStr v "source") then
      fieldOk fs "rows" isObjJ &&
      fieldOk fs "dtype" (fun v => isConstStr v "number" || isConstStr v "string") &&
      hasField fs "rows" && hasField fs "dtype" &&
      (if fieldOk fs "dtype" (fun v => isConstStr v "number") then
        rowsPatternOk fs isNumJ
      else
        rowsPatternOk fs isStrJ)
    else
      fieldOk fs "formula" isStrJ && hasField fs "formula")
  | _ => false

/-- The top level of `src/main.py`'s inline `schema`: required `title`,
`course`, `datetime` (note: no `code`) and `columns`, an array each of
whose items satisfies the per-item schema. -/
def mainSchemaValid (j : JVal) : Bool :=
  match j with
  | .obj fs =>
    fieldOk fs "title" isStrJ &&
    fieldOk fs "course" isStrJ &&
    fieldOk fs "datetime" isStrJ &&
    fieldOk fs "columns" (fun v =>
      match v with
      | .arr items => items.all columnItemValid
      | _ => false) &&
    hasField fs "title" && hasField fs "course" && hasField fs "datetime" &&
    hasField fs "columns"
  | _ => false

/-- A source column entry of the persisted format, as a JSON object. -/
def mkSourceItem (name dtype : String) (rows : List (String × JVal)) : JVal :=
  .obj [("type", .str "source"), ("dtype", .str dtype), ("name", .str name),
        ("rows", .obj rows)]



/-- Decidable equality of `Except` results (used to evaluate the model on
concrete documents). -/
instance exceptDecEq {e a : Type} [DecidableEq e] [DecidableEq a] : DecidableEq (Except e a)
  | .ok x, .ok y =>
    match decEq x y with
    | .isTrue h => .isTrue (by rw [h])
    | .isFalse h => .isFalse (by intro hc; cases hc; exact h rfl)
  | .error x, .error y =>
    match decEq x y with
    | .isTrue h => .isTrue (by rw [h])
    | .isFalse h => .isFalse (by intro hc; cases hc; exact h rfl)
  | .ok _, .error _ => .isFalse (by intro hc; cases hc)
  | .error _, .ok _ => .isFalse (by intro hc; cases hc)

/-- The document of spec §8's end-to-end example, built through the public
construction calls in the file order of `main()`: source column
`lab1 = {lur: 10}`, then computed `quad = "twice * 2"`, then computed
`twice = "lab1 * 2"` — `quad`'s dependency is declared after it. -/
def docC2chain : Except DErr Doc :=
  (Doc.init "Examen" "Programmation" "in2l" "2025-10-23T15:45:12").add_source_column
      "lab1" [("lur", some (.num 10))] >>= fun d =>
  d.add_computed_column "quad" (.mul (.ident "twice") (.const 2)) >>= fun d =>
  d.add_computed_column "twice" (.mul (.ident "lab1") (.const 2))

/-- A two-formula document with the genuine cycle of spec §8:
`a = b + 1`, `b = a + 1`. -/
def docCyc : Doc :=
  { title := "t", course := "c", code := "k", date := "d", filename := none,
    index := [], source := [],
    computed := [("a", .add (.ident "b") (.const 1)), ("b", .add (.ident "a") (.const 1))] }

/-- A document with one numeric source column `a = {r: 10}`. -/
def docA : Doc :=
  { title := "t", course := "c", code := "k", date := "d", filename := none,
    index := ["r"],
    source := [("a", { kind := .number,
                       cells := fun x => if x = "r" then some (.num 10) else none })],
    computed := [] }

/-- A document with one string source column `s = {r: "hi"}`. -/
def docS : Doc :=
  { title := "t", course := "c", code := "k", date := "d", filename := none,
    index := ["r"],
    source := [("s", { kind := .string,
                       cells := fun x => if x = "r" then some (.str "hi") else none })],
    computed := [] }

/-- A document whose only formula references the unknown identifier `z`
(spec §8: `c = z * 2` with no column `z`). -/
def docU : Doc :=
  { title := "t", course := "c", code := "k", date := "d", filename := none,
    index := ["r"],
    source := [("lab1", { kind := .number,
                          cells := fun x => if x = "r" then some (.num 10) else none })],
    computed := [("c", .mul (.ident "z") (.const 2))] }

/-- Does the cell fit the column dtype (numeric-or-null in a `float64`
column, string-or-null in an `object` column)? -/
def cellKindOk : CKind → Cell → Bool
  | .number, cl => cellNumOrNull cl
  | .string, cl => cellStrOrNull cl

/-- Well-formedness of an in-memory document, the invariants a document
reachable through the public constructors satisfies: distinct row keys;
distinct, identifier-valid column names; cells matching their column's
dtype; `none` cells off the index (pandas physically holds NaN there);
and every `object`-dtype column holding at least one actual string on the
index (an all-null column is created as `float64`, cf. claim C10). -/
def DocWF (doc : Doc) : Prop :=
  doc.index.Nodup ∧
  doc.column_names.Nodup ∧
  (∀ n ∈ doc.column_names, isidentifier n = true) ∧
  (∀ p ∈ doc.source, ∀ r, cellKindOk p.2.kind (p.2.cells r) = true) ∧
  (∀ p ∈ doc.source, ∀ r, r ∉ doc.index → p.2.cells r = none) ∧
  (∀ p ∈ doc.source, p.2.kind = .string → ∃ r ∈ doc.index, ∃ s, p.2.cells r = some (.str s))

/-- A numeric evaluation value: a scalar, or a `float64` column. -/
def EvalValNumeric : EvalVal → Prop
  | .col c => c.kind = .number
  | .scalar _ => True

/-- Every column of the frame has dtype `float64`. -/
def DFNumeric (df : DF) : Prop :=
  ∀ n c, assocFind n df = some c → c.kind = .number

/-- The triangular number `0 + 1 + ⋯ + (k-1)`, the attempt-count budget
of the dependency-resolution progress argument. -/
def tri : Nat → Nat
  | 0 => 0
  | k + 1 => k + tri k

/-- Is the entry list topologically sorted over `done`-so-far: each
formula references only source names or computed names listed earlier? -/
def topoOk (srcNames : List String) : List String → List (String × Formula) → Bool
  | _, [] => true
  | done, (c, f) :: rest =>
    f.idents.all (fun x => decide (x ∈ srcNames ∨ x ∈ done)) &&
      topoOk srcNames (done ++ [c]) rest

/-- The canonical evaluation: materialize the computed columns in the
given (topological) order, each against the frame built so far. -/
def buildCanonical (df : DF) : List (String × Formula) → Except EvalErr DF
  | [] => .ok df
  | (c, f) :: rest =>
    match evalExpr df f with
    | .error e => .error e
    | .ok v => buildCanonical (dfSet df c (toCol v)) rest

/-- Is the queue entry ready: every identifier of its formula is present
in the working frame? -/
def readyB (df : DF) (f : Formula) : Bool :=
  f.idents.all (fun x => (assocFind x df).isSome)

/-- A well-formed two-column round-trip document: numeric source column
`a = {r: 1, t: null}`, string source column `s = {r: "hi", t: null}`,
computed column `b = abs(a)`. -/
def docRT : Doc :=
  { title := "T", course := "C", code := "K", date := "2025-10-23T15:45:12",
    filename := none,
    index := ["r", "t"],
    source :=
      [("a", { kind := .number,
               cells := fun x => if x = "r" then some (.num 1) else none }),
       ("s", { kind := .string,
               cells := fun x => if x = "r" then some (.str "hi") else none })],
    computed := [("b", .fabs (.ident "a"))] }

/-- The C5 order-independence witness pair: the same source column and
formulas as `docC2chain`, with the two computed columns declared in the
two possible orders. -/
def docP1 : Doc :=
  { title := "t", course := "c", code := "k", date := "d", filename := none,
    index := ["lur"],
    source := [("lab1", { kind := .number,
                          cells := fun x => if x = "lur" then some (.num 10) else none })],
    computed := [("quad", .mul (.ident "twice") (.const 2)),
                 ("twice", .mul (.ident "lab1") (.const 2))] }

/-- As `docP1` with the computed columns declared in dependency order. -/
def docP2 : Doc :=
  { docP1 with
    computed := [("twice", .mul (.ident "lab1") (.const 2)),
                 ("quad", .mul (.ident "twice") (.const 2))] }

/-- A topological order for the formulas of `docP1` / `docP2`. -/
def ordP : List (String × Formula) :=
  [("twice", .mul (.ident "lab1") (.const 2)),
   ("quad", .mul (.ident "twice") (.const 2))]

/-- The file contents `Document.save` produces for a well-formed document
whose evaluation succeeds: each source column with its stored dtype and
its cells over the index (NaN as null), then each formula. -/
def saveDataOf (doc : Doc) : SaveData :=
  { title := doc.title, course := doc.course, code := doc.code, date := doc.date,
    columns :=
      doc.source.map (fun p => SavedCol.source p.1 p.2.kind
        (doc.index.map (fun r => (r, p.2.cells r)))) ++
      doc.computed.map (fun p => SavedCol.computed p.1 p.2) }

/-- The document state reached by `from_dict` after re-adding the first
`pre` source columns of `doc`: the frame index is adopted from the first
column's rows (hence empty until a column with rows is added). -/
def accSource (doc : Doc) (pre : List (String × Col)) : Doc :=
  { title := doc.title, course := doc.course, code := doc.code, date := doc.date,
    filename := none,
    index := match pre with | [] => [] | _ => doc.index,
    source := pre, computed := [] }

theorem assocFind_eq_none {α : Type} {k : String} {l : List (String × α)} :
    assocFind k l = none ↔ k ∉ keysOf l := by
  induction l with
  | nil => simp [assocFind, keysOf]
  | cons p rest ih =>
    obtain ⟨k₂, v⟩ := p
    by_cases h : k = k₂ <;> simp [assocFind, keysOf, h, ih]

theorem assocFind_isSome {α : Type} {k : String} {l : List (String × α)} :
    (assocFind k l).isSome = true ↔ k ∈ keysOf l := by
  rw [Option.isSome_iff_ne_none]
  constructor
  · intro h
    by_contra hk
    exact h (assocFind_eq_none.mpr hk)
  · intro h hn
    exact assocFind_eq_none.mp hn h

theorem assocFind_mem {α : Type} {k : String} {l : List (String × α)} {v : α}
    (h : assocFind k l = some v) : (k, v) ∈ l := by
  induction l with
  | nil => simp [assocFind] at h
  | cons p rest ih =>
    obtain ⟨k₂, w⟩ := p
    by_cases hk : k = k₂
    · subst hk
      simp [assocFind] at h
      subst h
      exact List.mem_cons_self _ _
    · simp [assocFind, hk] at h
      exact List.mem_cons_of_mem _ (ih h)

theorem assocFind_append {α : Type} (k : String) (l₁ l₂ : List (String × α)) :
    assocFind k (l₁ ++ l₂) =
      match assocFind k l₁ with
      | some v => some v
      | none => assocFind k l₂ := by
  induction l₁ with
  | nil => simp [assocFind]
  | cons p rest ih =>
    obtain ⟨k₂, v⟩ := p
    by_cases h : k = k₂ <;> simp [assocFind, h, ih]

theorem assocFind_cons {α : Type} (k k₂ : String) (v : α) (l : List (String × α)) :
    assocFind k ((k₂, v) :: l) = if k = k₂ then some v else assocFind k l := rfl

theorem assocReplace_find_ne {α : Type} {m n : String} (h : m ≠ n) (c : α)
    (l : List (String × α)) :
    assocFind m (assocReplace n c l) = assocFind m l := by
  induction l with
  | nil => rfl
  | cons p rest ih =>
    obtain ⟨k₂, v⟩ := p
    unfold assocReplace
    by_cases hp : k₂ = n
    · rw [if_pos hp, assocFind_cons, assocFind_cons, if_neg h,
        if_neg (fun hm : m = k₂ => h (hm.trans hp)), ih]
    · rw [if_neg hp, assocFind_cons, assocFind_cons, ih]

theorem assocReplace_find_self {α : Type} {n : String} (c : α) (l : List (String × α))
    (h : n ∈ keysOf l) :
    assocFind n (assocReplace n c l) = some c := by
  induction l with
  | nil => simp [keysOf] at h
  | cons p rest ih =>
    obtain ⟨k₂, v⟩ := p
    unfold assocReplace
    by_cases hp : k₂ = n
    · rw [if_pos hp, assocFind_cons, if_pos rfl]
    · rw [if_neg hp, assocFind_cons, if_neg (fun hm : n = k₂ => hp hm.symm)]
      simp only [keysOf, List.map_cons, List.mem_cons] at h
      rcases h with h | h
      · exact absurd h.symm hp
      · exact ih h

theorem keysOf_assocReplace {α : Type} (n : String) (c : α) (l : List (String × α)) :
    keysOf (assocReplace n c l) = (keysOf l).map (fun k => if k = n then n else k) := by
  induction l with
  | nil => rfl
  | cons p rest ih =>
    obtain ⟨k₂, v⟩ := p
    unfold assocReplace
    by_cases hp : k₂ = n
    · rw [if_pos hp]
      show n :: keysOf (assocReplace n c rest) =
        (k₂ :: keysOf rest).map (fun k => if k = n then n else k)
      rw [List.map_cons, if_pos hp, ih]
    · rw [if_neg hp]
      show k₂ :: keysOf (assocReplace n c rest) =
        (k₂ :: keysOf rest).map (fun k => if k = n then n else k)
      rw [List.map_cons, if_neg hp, ih]

theorem dfSet_find_self (df : DF) (n : String) (c : Col) :
    assocFind n (dfSet df n c) = some c := by
  unfold dfSet
  split
  next h => exact assocReplace_find_self c df (assocFind_isSome.mp h)
  next h =>
    have h' : assocFind n df = none := by
      cases hf : assocFind n df with
      | none => rfl
      | some v => rw [hf] at h; simp at h
    rw [assocFind_append, h']
    simp [assocFind]

theorem dfSet_find_ne (df : DF) {m n : String} (c : Col) (h : m ≠ n) :
    assocFind m (dfSet df n c) = assocFind m df := by
  unfold dfSet
  split
  next => exact assocReplace_find_ne h c df
  next =>
    rw [assocFind_append]
    cases hf : assocFind m df <;> simp [assocFind, h]

theorem keysOf_dfSet_mem (df : DF) {n : String} (c : Col) (h : n ∈ keysOf df) :
    keysOf (dfSet df n c) = keysOf df := by
  unfold dfSet
  rw [if_pos (assocFind_isSome.mpr h), keysOf_assocReplace]
  have : ∀ k, (if k = n then n else k) = k := by
    intro k
    by_cases hk : k = n
    · rw [if_pos hk, hk]
    · rw [if_neg hk]
  simp [this]

theorem keysOf_dfSet_not_mem (df : DF) {n : String} (c : Col) (h : n ∉ keysOf df) :
    keysOf (dfSet df n c) = keysOf df ++ [n] := by
  unfold dfSet
  rw [if_neg (fun hs => h (assocFind_isSome.mp hs))]
  simp [keysOf]

theorem vArith_ne_nameErr (op : Int → Int → Int) (a b : EvalVal) (x : String) :
    vArith op a b ≠ .error (.nameErr x) := by
  cases a <;> cases b <;> simp [vArith] <;> split <;> simp

theorem vAbs_ne_nameErr (a : EvalVal) (x : String) :
    vAbs a ≠ .error (.nameErr x) := by
  cases a with
  | scalar n => simp [vAbs]
  | col c =>
    simp only [vAbs]
    split <;> simp

theorem vArith_ok_of_numeric (op : Int → Int → Int) {a b : EvalVal}
    (ha : EvalValNumeric a) (hb : EvalValNumeric b) :
    ∃ v, vArith op a b = .ok v ∧ EvalValNumeric v := by
  cases a <;> cases b <;>
    simp [EvalValNumeric, vArith] at ha hb ⊢ <;>
    simp [ha, hb, EvalValNumeric]

theorem vAbs_ok_of_numeric {a : EvalVal} (ha : EvalValNumeric a) :
    ∃ v, vAbs a = .ok v ∧ EvalValNumeric v := by
  cases a with
  | scalar n => simp [vAbs, EvalValNumeric]
  | col c =>
    simp only [EvalValNumeric] at ha
    simp [vAbs, ha, EvalValNumeric]

theorem evalExpr_ok_idents {df : DF} {f : Formula} {v : EvalVal}
    (h : evalExpr df f = .ok v) :
    ∀ x ∈ f.idents, (assocFind x df).isSome := by
  induction f generalizing v with
  | const n => simp [Formula.idents]
  | ident y =>
    intro x hx
    simp only [Formula.idents, List.mem_singleton] at hx
    subst hx
    unfold evalExpr at h
    cases hf : assocFind x df with
    | none => rw [hf] at h; simp at h
    | some c => simp
  | add a b iha ihb | sub a b iha ihb | mul a b iha ihb =>
    intro x hx
    simp only [Formula.idents, List.mem_append] at hx
    unfold evalExpr at h
    cases ha : evalExpr df a with
    | error e => rw [ha] at h; simp [Bind.bind, Except.bind] at h
    | ok va =>
      rw [ha] at h
      cases hb : evalExpr df b with
      | error e => rw [hb] at h; simp [Bind.bind, Except.bind] at h
      | ok vb =>
        rcases hx with hx | hx
        · exact iha ha x hx
        · exact ihb hb x hx
  | fabs e ihe =>
    intro x hx
    simp only [Formula.idents] at hx
    unfold evalExpr at h
    cases he : evalExpr df e with
    | error err => rw [he] at h; simp [Bind.bind, Except.bind] at h
    | ok ve => exact ihe he x hx

theorem evalExpr_nameErr {df : DF} {f : Formula} {x : String}
    (h : evalExpr df f = .error (.nameErr x)) :
    x ∈ f.idents ∧ assocFind x df = none := by
  induction f with
  | const n => simp [evalExpr] at h
  | ident y =>
    unfold evalExpr at h
    cases hf : assocFind y df with
    | none =>
      rw [hf] at h
      simp only [Except.error.injEq, EvalErr.nameErr.injEq] at h
      subst h
      exact ⟨by simp [Formula.idents], hf⟩
    | some c => rw [hf] at h; simp at h
  | add a b iha ihb | sub a b iha ihb | mul a b iha ihb =>
    unfold evalExpr at h
    cases ha : evalExpr df a with
    | error e =>
      rw [ha] at h
      simp only [Bind.bind, Except.bind, Except.error.injEq] at h
      subst h
      obtain ⟨h1, h2⟩ := iha ha
      exact ⟨by simp [Formula.idents, h1], h2⟩
    | ok va =>
      rw [ha] at h
      cases hb : evalExpr df b with
      | error e =>
        rw [hb] at h
        simp only [Bind.bind, Except.bind, Except.error.injEq] at h
        subst h
        obtain ⟨h1, h2⟩ := ihb hb
        exact ⟨by simp [Formula.idents, h1], h2⟩
      | ok vb =>
        rw [hb] at h
        simp only [Bind.bind, Except.bind] at h
        exact absurd h (vArith_ne_nameErr _ _ _ _)
  | fabs e ihe =>
    unfold evalExpr at h
    cases he : evalExpr df e with
    | error err =>
      rw [he] at h
      simp only [Bind.bind, Except.bind, Except.error.injEq] at h
      subst h
      obtain ⟨h1, h2⟩ := ihe he
      exact ⟨by simp [Formula.idents, h1], h2⟩
    | ok ve =>
      rw [he] at h
      simp only [Bind.bind, Except.bind] at h
      exact absurd h (vAbs_ne_nameErr _ _)

theorem evalExpr_numeric_total {df : DF} (hdf : DFNumeric df) (f : Formula) :
    (∀ v, evalExpr df f = .ok v → EvalValNumeric v) ∧
      evalExpr df f ≠ .error .typeErr := by
  induction f with
  | const n => exact ⟨fun v h => by simp [evalExpr] at h; simp [← h, EvalValNumeric], by simp [evalExpr]⟩
  | ident y =>
    constructor
    · intro v h
      unfold evalExpr at h
      cases hf : assocFind y df with
      | none => rw [hf] at h; simp at h
      | some c =>
        rw [hf] at h
        simp only [Except.ok.injEq] at h
        subst h
        exact hdf y c hf
    · intro h
      unfold evalExpr at h
      cases hf : assocFind y df with
      | none => rw [hf] at h; simp at h
      | some c => rw [hf] at h; simp at h
  | add a b iha ihb | sub a b iha ihb | mul a b iha ihb =>
    constructor
    · intro v h
      unfold evalExpr at h
      cases ha : evalExpr df a with
      | error e => rw [ha] at h; simp [Bind.bind, Except.bind] at h
      | ok va =>
        rw [ha] at h
        cases hb : evalExpr df b with
        | error e => rw [hb] at h; simp [Bind.bind, Except.bind] at h
        | ok vb =>
          rw [hb] at h
          simp only [Bind.bind, Except.bind] at h
          obtain ⟨w, hw, hnum⟩ := vArith_ok_of_numeric _ (iha.1 va ha) (ihb.1 vb hb)
          rw [hw] at h
          simp only [Except.ok.injEq] at h
          exact h ▸ hnum
    · intro h
      unfold evalExpr at h
      cases ha : evalExpr df a with
      | error e =>
        rw [ha] at h
        simp only [Bind.bind, Except.bind, Except.error.injEq] at h
        exact iha.2 (h ▸ ha)
      | ok va =>
        rw [ha] at h
        cases hb : evalExpr df b with
        | error e =>
          rw [hb] at h
          simp only [Bind.bind, Except.bind, Except.error.injEq] at h
          exact ihb.2 (h ▸ hb)
        | ok vb =>
          rw [hb] at h
          simp only [Bind.bind, Except.bind] at h
          obtain ⟨w, hw, _⟩ := vArith_ok_of_numeric _ (iha.1 va ha) (ihb.1 vb hb)
          rw [hw] at h
          simp at h
  | fabs e ihe =>
    constructor
    · intro v h
      unfold evalExpr at h
      cases he : evalExpr df e with
      | error err => rw [he] at h; simp [Bind.bind, Except.bind] at h
      | ok ve =>
        rw [he] at h
        simp only [Bind.bind, Except.bind] at h
        obtain ⟨w, hw, hnum⟩ := vAbs_ok_of_numeric (ihe.1 ve he)
        rw [hw] at h
        simp only [Except.ok.injEq] at h
        exact h ▸ hnum
    · intro h
      unfold evalExpr at h
      cases he : evalExpr df e with
      | error err =>
        rw [he] at h
        simp only [Bind.bind, Except.bind, Except.error.injEq] at h
        exact ihe.2 (h ▸ he)
      | ok ve =>
        rw [he] at h
        simp only [Bind.bind, Except.bind] at h
        obtain ⟨w, hw, _⟩ := vAbs_ok_of_numeric (ihe.1 ve he)
        rw [hw] at h
        simp at h

theorem evalAgree {df1 df2 : DF} {f : Formula} {v : EvalVal}
    (hagree : ∀ x ∈ f.idents, (assocFind x df2).isSome → assocFind x df2 = assocFind x df1)
    (h1 : evalExpr df1 f = .ok v) :
    evalExpr df2 f = .ok v ∨
      ∃ y ∈ f.idents, assocFind y df2 = none ∧ evalExpr df2 f = .error (.nameErr y) := by
  induction f generalizing v with
  | const n =>
    left
    simpa [evalExpr] using h1
  | ident y =>
    unfold evalExpr at h1 ⊢
    cases hf1 : assocFind y df1 with
    | none => rw [hf1] at h1; simp at h1
    | some c =>
      rw [hf1] at h1
      cases hf2 : assocFind y df2 with
      | none =>
        right
        exact ⟨y, by simp [Formula.idents], hf2, rfl⟩
      | some c2 =>
        left
        have h3 := hagree y (by simp [Formula.idents]) (by simp [hf2])
        rw [hf2, hf1] at h3
        simp only [Option.some.injEq] at h3
        subst h3
        exact h1
  | add a b iha ihb | sub a b iha ihb | mul a b iha ihb =>
    unfold evalExpr at h1 ⊢
    have hagA : ∀ x ∈ a.idents, (assocFind x df2).isSome → assocFind x df2 = assocFind x df1 :=
      fun x hx => hagree x (by simp [Formula.idents, hx])
    have hagB : ∀ x ∈ b.idents, (assocFind x df2).isSome → assocFind x df2 = assocFind x df1 :=
      fun x hx => hagree x (by simp [Formula.idents, hx])
    cases ha1 : evalExpr df1 a with
    | error e => rw [ha1] at h1; simp [Bind.bind, Except.bind] at h1
    | ok va =>
      rw [ha1] at h1
      cases hb1 : evalExpr df1 b with
      | error e => rw [hb1] at h1; simp [Bind.bind, Except.bind] at h1
      | ok vb =>
        rw [hb1] at h1
        simp only [Bind.bind, Except.bind] at h1
        rcases iha hagA ha1 with ha2 | ⟨y, hy, hyn, ha2⟩
        · rcases ihb hagB hb1 with hb2 | ⟨y, hy, hyn, hb2⟩
          · left
            rw [ha2, hb2]
            simpa [Bind.bind, Except.bind] using h1
          · right
            refine ⟨y, by simp [Formula.idents, hy], hyn, ?_⟩
            rw [ha2, hb2]
            simp [Bind.bind, Except.bind]
        · right
          refine ⟨y, by simp [Formula.idents, hy], hyn, ?_⟩
          rw [ha2]
          simp [Bind.bind, Except.bind]
  | fabs e ihe =>
    unfold evalExpr at h1 ⊢
    cases he1 : evalExpr df1 e with
    | error err => rw [he1] at h1; simp [Bind.bind, Except.bind] at h1
    | ok ve =>
      rw [he1] at h1
      simp only [Bind.bind, Except.bind] at h1
      rcases ihe (fun x hx => hagree x (by simpa [Formula.idents] using hx)) he1 with
        he2 | ⟨y, hy, hyn, he2⟩
      · left
        rw [he2]
        simpa [Bind.bind, Except.bind] using h1
      · right
        refine ⟨y, by simpa [Formula.idents] using hy, hyn, ?_⟩
        rw [he2]
        simp [Bind.bind, Except.bind]

theorem attemptsAux_le (cnames : List String) :
    ∀ (fuel : Nat) (df : DF) (q : List (String × Formula)),
      attemptsAux cnames fuel df q ≤ fuel := by
  intro fuel
  induction fuel with
  | zero =>
    intro df q
    cases q <;> simp [attemptsAux]
  | succ n ih =>
    intro df q
    cases q with
    | nil => simp [attemptsAux]
    | cons p rest =>
      obtain ⟨name, f⟩ := p
      unfold attemptsAux
      cases h : evalExpr df f with
      | ok v =>
        show 1 + attemptsAux cnames n (dfSet df name (toCol v)) rest ≤ n + 1
        have := ih (dfSet df name (toCol v)) rest
        omega
      | error e =>
        cases e with
        | nameErr x =>
          show (if x ∈ cnames then 1 + attemptsAux cnames n df (rest ++ [(name, f)]) else 1) ≤ n + 1
          by_cases hx : x ∈ cnames
          · rw [if_pos hx]
            have := ih df (rest ++ [(name, f)])
            omega
          · rw [if_neg hx]
            omega
        | typeErr =>
          show 1 ≤ n + 1
          omega

/-- C2: for the document with source column `lab1 = {lur: 10}` and computed
columns `twice = "lab1*2"` and `quad = "twice*2"` added in an order where
`quad`'s dependency is not yet materialized at its first attempt,
`column("twice")` returns `{lur: 20}` and `column("quad")` returns
`{lur: 40}`: the retry queue resolves dependency-inverted declaration
order. -/
theorem c2_dependency_retry :
    docC2chain.bind (fun d => d.column "twice") = .ok [("lur", some (.num 20))] ∧
    docC2chain.bind (fun d => d.column "quad") = .ok [("lur", some (.num 40))] :=
  ⟨by decide, by decide⟩

/-- C7 counterexample: under `src/main.py`'s schema, a source column entry
whose row value is `null` is rejected for both dtypes (the claim states a
null row value is accepted under both), while genuinely numeric (resp.
string) values behave as claimed. -/
theorem c7_counterexample :
    columnItemValid (mkSourceItem "lab1" "number" [("lur", .null)]) = false ∧
    columnItemValid (mkSourceItem "lab1" "string" [("lur", .null)]) = false ∧
    columnItemValid (mkSourceItem "lab1" "number" [("lur", .num 10)]) = true ∧
    columnItemValid (mkSourceItem "lab1" "number" [("lur", .str "x")]) = false ∧
    columnItemValid (mkSourceItem "lab1" "string" [("lur", .str "x")]) = true :=
  ⟨rfl, rfl, rfl, rfl, rfl⟩

/-- C7 (amended): schema validation of a source column entry with dtype
`number` succeeds exactly when every row value (at a nonempty key) is a
JSON number, and with dtype `string` exactly when every such value is a
JSON string; a null row value is rejected under both dtypes. -/
theorem c7_dtype_validation (name : String) (rows : List (String × JVal)) :
    columnItemValid (mkSourceItem name "number" rows) =
      rows.all (fun p => !patMatch p.1 || isNumJ p.2) ∧
    columnItemValid (mkSourceItem name "string" rows) =
      rows.all (fun p => !patMatch p.1 || isStrJ p.2) := by
  constructor <;>
    simp [columnItemValid, mkSourceItem, fieldOk, hasField, assocFind,
      rowsPatternOk, isConstStr, isStrJ, isObjJ]

/-- C6 counterexample: `"a"` is a valid identifier and collides with the
existing source column `a` of `docA`, yet `add_source_column` succeeds —
and replaces the column (its cell at row `r` changes from `10` to `"x"`),
contradicting the claim that a collision fails with `InvalidNameError`
and leaves the existing column unchanged. -/
theorem c6_counterexample :
    isidentifier "a" = true ∧
    "a" ∈ docA.sourceNames ∧
    (docA.add_source_column "a" [("r", some (.str "x"))]).isOk = true ∧
    ((docA.add_source_column "a" [("r", some (.str "x"))]).toOption.bind
        (fun d => assocFind "a" d.source)).map (fun c => c.cells "r") =
      some (some (.str "x")) ∧
    (assocFind "a" docA.source).map (fun c => c.cells "r") = some (some (.num 10)) :=
  ⟨by decide, by decide, by decide, by decide, by decide⟩

/-- C6 (amended): `add_source_column` fails with `InvalidNameError`
exactly when the name is not a valid identifier; a name collision with an
existing column is not checked — for a valid identifier and homogeneous
values the call succeeds even when the name collides, replacing an
existing source column of that name in place. -/
theorem c6_name_validation (doc : Doc) (name : String) (rows : List (String × Cell)) :
    (isidentifier name = false → doc.add_source_column name rows = .error .invalidName) ∧
    (isidentifier name = true →
      (rows.all (fun p => cellNumOrNull p.2) = true ∨
        rows.all (fun p => cellStrOrNull p.2) = true) →
      (doc.add_source_column name rows).isOk = true) := by
  constructor
  · intro h
    unfold Doc.add_source_column
    rw [h]
    rfl
  · intro h hrows
    unfold Doc.add_source_column
    rw [h]
    by_cases hnum : rows.all (fun p => cellNumOrNull p.2) = true
    · simp [hnum, Except.isOk, Except.toBool]
    · rcases hrows with hr | hr
      · exact absurd hr hnum
      · simp [hnum, hr, Except.isOk, Except.toBool]

/-- C6 witness: an invalid name fails; the colliding name `"a"` on `docA`
succeeds. -/
theorem c6_name_validation_witness :
    (Doc.init "t" "c" "k" "d").add_source_column "1bad" [] = .error .invalidName ∧
    (docA.add_source_column "a" [("r", some (.str "x"))]).isOk = true :=
  ⟨(c6_name_validation (Doc.init "t" "c" "k" "d") "1bad" []).1 (by decide),
   (c6_name_validation docA "a" [("r", some (.str "x"))]).2 (by decide)
     (Or.inr (by decide))⟩

/-- C8: a cell write of a string into a source column of kind `Number`
(and symmetrically of a number into a kind-`String` column) fails with
`TypeMismatchError`.  The model is pure, so the error return leaves the
caller's document — every cell of that column and the rest of the
document — unchanged, mirroring that `__setitem__` raises before any
mutation of `self.__source`. -/
theorem c8_type_mismatch (doc : Doc) (r c : String) (col : Col)
    (hcol : assocFind c doc.source = some col) :
    (col.kind = .number → ∀ s, doc.setCell r c (.str s) = .error .typeMismatch) ∧
    (col.kind = .string → ∀ n, doc.setCell r c (.num n) = .error .typeMismatch) := by
  constructor
  · intro hk s
    unfold Doc.setCell
    rw [hcol]
    simp [hk, Val.isNum]
  · intro hk n
    unfold Doc.setCell
    rw [hcol]
    simp [hk, Val.isNum, Val.isStr]

/-- C8 witness: writing `"oops"` into the numeric column of `docA` and
`3` into the string column of `docS` both fail with the type error. -/
theorem c8_type_mismatch_witness :
    docA.setCell "r" "a" (.str "oops") = .error .typeMismatch ∧
    docS.setCell "r" "s" (.num 3) = .error .typeMismatch :=
  ⟨(c8_type_mismatch docA "r" "a" _ rfl).1 rfl "oops",
   (c8_type_mismatch docS "r" "s" _ rfl).2 rfl 3⟩

/-- C9 counterexample: on a fresh document (`Document.new()`, no source
columns) the non-duplicate index `"r"` is not inserted — the assignment
`self.__source.loc[index] = {}` raises the pandas `ValueError` "cannot
set a frame with no defined columns" — refuting the claim's unconditional
otherwise-branch. -/
theorem c9_counterexample :
    "r" ∉ (Doc.init "t" "c" "k" "d").index ∧
    (Doc.init "t" "c" "k" "d").add_row "r" = .error .noColumns :=
  ⟨by decide, rfl⟩

/-- C9 (amended): `add_row(index)` fails with `DuplicateRowError` when the
index already exists; on a document with no source columns a fresh index
is likewise not inserted, pandas raising `ValueError` ("cannot set a
frame with no defined columns"); otherwise it appends the row and gives
every existing source column a null cell there, leaving every other
row's cells, the column set, and the formula map unchanged — so all
source columns keep sharing one row-key universe. -/
theorem c9_add_row (doc : Doc) (r : String) :
    (r ∈ doc.index → doc.add_row r = .error .duplicateRow) ∧
    (r ∉ doc.index → doc.source = [] → doc.add_row r = .error .noColumns) ∧
    (r ∉ doc.index → doc.source ≠ [] →
      ∃ d, doc.add_row r = .ok d ∧
        d.index = doc.index ++ [r] ∧
        d.computed = doc.computed ∧
        keysOf d.source = keysOf doc.source ∧
        ∀ p ∈ doc.source, ∃ c : Col, (p.1, c) ∈ d.source ∧ c.kind = p.2.kind ∧
          c.cells r = none ∧ ∀ x, x ≠ r → c.cells x = p.2.cells x) := by
  refine ⟨?_, ?_, ?_⟩
  · intro h
    unfold Doc.add_row
    rw [if_pos h]
  · intro h hnil
    unfold Doc.add_row
    rw [if_neg h, if_pos (by simp [keysOf, hnil])]
  · intro h hne
    have hkne : ¬ keysOf doc.source = [] := by
      cases hs : doc.source with
      | nil => exact absurd hs hne
      | cons p rest => simp [keysOf]
    unfold Doc.add_row
    rw [if_neg h, if_neg hkne]
    refine ⟨_, rfl, rfl, rfl, ?_, ?_⟩
    · simp [keysOf, List.map_map]
    · intro p hp
      exact ⟨_, List.mem_map_of_mem _ hp, rfl, by simp, fun x hx => by simp [hx]⟩

/-- C9 witness: the duplicate row `"r"` of `docA` fails; a fresh document
has no source columns and rejects the fresh row `"r"`; `docA` has a
source column and the fresh row `"t"` is inserted as claimed. -/
theorem c9_add_row_witness :
    docA.add_row "r" = .error .duplicateRow ∧
    (Doc.init "t" "c" "k" "d").add_row "r" = .error .noColumns ∧
    (∃ d, docA.add_row "t" = .ok d ∧
      d.index = docA.index ++ ["t"] ∧
      d.computed = docA.computed ∧
      keysOf d.source = keysOf docA.source ∧
      ∀ p ∈ docA.source, ∃ c : Col, (p.1, c) ∈ d.source ∧ c.kind = p.2.kind ∧
        c.cells "t" = none ∧ ∀ x, x ≠ "t" → c.cells x = p.2.cells x) :=
  ⟨(c9_add_row docA "r").1 (by decide),
   (c9_add_row (Doc.init "t" "c" "k" "d") "r").2.1 (by decide) rfl,
   (c9_add_row docA "t").2.2 (by decide) (by simp [docA])⟩

/-- C4: whenever the engine pops an entry whose formula evaluation raises
`NameError` on an identifier that is not a computed-column name, the run
aborts immediately with that identifier (`UndefinedReferenceError` naming
it) instead of re-queuing the entry; the failed name is referenced by the
formula and absent from the working frame (which always contains every
source column, so it is neither a source nor a computed column).  The
engine works on a copy of the source frame and the model is pure, so the
document's source storage and formula map are unchanged by the failure. -/
theorem c4_undefined_reference (cnames : List String) (fuel : Nat) (df : DF)
    (name : String) (f : Formula) (rest : List (String × Formula)) (x : String)
    (heval : evalExpr df f = .error (.nameErr x)) (hx : x ∉ cnames) :
    computeAux cnames (fuel + 1) df ((name, f) :: rest) = .error (.undefinedName x) ∧
    x ∈ f.idents ∧ assocFind x df = none := by
  obtain ⟨h1, h2⟩ := evalExpr_nameErr heval
  refine ⟨?_, h1, h2⟩
  unfold computeAux
  rw [heval]
  simp [hx]

/-- C4 witness: in `docU`, whose formula `c = z * 2` references the
unknown `z`, the run aborts with `UndefinedReferenceError` naming `z`. -/
theorem c4_undefined_reference_witness :
    docU.compute = .error (.undefinedName "z") ∧
    "z" ∈ (Formula.mul (.ident "z") (.const 2)).idents ∧
    assocFind "z" docU.source = none := by
  have h := c4_undefined_reference ["c"] 1 docU.source "c"
    (.mul (.ident "z") (.const 2)) [] "z" rfl (by decide)
  exact ⟨h.1, h.2.1, h.2.2⟩

/-- C3 counterexample: on the genuine two-column cycle `a = b + 1`,
`b = a + 1`, the engine does raise `CyclicDependencyError`, but it
performs 5 evaluation attempts, exceeding the claimed bound of
`(number of computed columns)² = 4`: the code only raises once the
counter strictly exceeds `max_iter`. -/
theorem c3_counterexample :
    docCyc.compute = .error .cyclicDependency ∧
    docCyc.computed.length ^ 2 = 4 ∧
    docCyc.computeAttempts = 5 ∧
    docCyc.computed.length ^ 2 < docCyc.computeAttempts :=
  ⟨rfl, rfl, rfl, by decide⟩

/-- C10: for a rows mapping whose values are all null (including the empty
mapping), `add_source_column` creates a `float64` column — `column_type`
reports `number` — because the numeric-or-null check is vacuously
satisfied before the string-or-null check is tried; consequently a
kind-`string` column can only be created from rows containing at least
one non-null string value. -/
theorem c10_null_column_kind (doc : Doc) (name : String) (rows : List (String × Cell))
    (hname : isidentifier name = true) (hnull : ∀ p ∈ rows, p.2 = none) :
    (∃ d, doc.add_source_column name rows = .ok d ∧
      assocFind name d.source =
        some { kind := .number, cells := fun r => (assocFind r rows).getD none } ∧
      (doc.computed = [] → d.column_type name = .ok .number)) ∧
    (∀ (doc₂ d₂ : Doc) (rows₂ : List (String × Cell)),
      doc₂.add_source_column name rows₂ = .ok d₂ →
      ∀ c, assocFind name d₂.source = some c → c.kind = .string →
        ∃ p ∈ rows₂, ∃ s, p.2 = some (.str s)) := by
  have hall : rows.all (fun p => cellNumOrNull p.2) = true := by
    rw [List.all_eq_true]
    intro p hp
    rw [hnull p hp]
    rfl
  constructor
  · refine ⟨{ doc with
        index := if doc.index = [] ∧ rows ≠ [] then keysOf rows else doc.index,
        source := dfSet doc.source name
          { kind := .number, cells := fun r => (assocFind r rows).getD none } },
      ?_, ?_, ?_⟩
    · simp [Doc.add_source_column, hname, hall]
    · exact dfSet_find_self doc.source name _
    · intro hcomp
      simp [Doc.column_type, Doc.compute, Doc.computedNames, hcomp, computeAux, keysOf,
        dfSet_find_self]
  · intro doc₂ d₂ rows₂ hadd c hc hkind
    unfold Doc.add_source_column at hadd
    by_cases hnum : rows₂.all (fun p => cellNumOrNull p.2) = true
    · simp only [hname, Bool.not_true, Bool.false_eq_true, if_false, hnum, if_true] at hadd
      obtain rfl : _ = d₂ := by
        cases hadd
        rfl
      rw [dfSet_find_self] at hc
      cases hc
      cases hkind
    · by_cases hstr : rows₂.all (fun p => cellStrOrNull p.2) = true
      · have hexists : ∃ p ∈ rows₂, cellNumOrNull p.2 = false := by
          by_contra hcon
          push_neg at hcon
          apply hnum
          rw [List.all_eq_true]
          intro p hp
          cases hval : cellNumOrNull p.2 with
          | true => rfl
          | false => exact absurd hval (hcon p hp)
        obtain ⟨p, hp, hpf⟩ := hexists
        have hps := List.all_eq_true.mp hstr p hp
        cases hcell : p.2 with
        | none => rw [hcell] at hpf; simp [cellNumOrNull] at hpf
        | some v =>
          cases v with
          | num n => rw [hcell] at hps; simp [cellStrOrNull] at hps
          | str sstr => exact ⟨p, hp, sstr, hcell⟩
      · simp [hname, hnum, hstr] at hadd

/-- C10 witness: adding the all-null mapping `{r: null}` and the empty
mapping to `docA` both create `float64` columns reported as `number`. -/
theorem c10_null_column_kind_witness :
    (∃ d, docA.add_source_column "n" [("r", none)] = .ok d ∧
      assocFind "n" d.source =
        some { kind := .number,
               cells := fun r => (assocFind r [("r", (none : Cell))]).getD none } ∧
      (docA.computed = [] → d.column_type "n" = .ok .number)) ∧
    (∃ d, docA.add_source_column "m" [] = .ok d ∧
      assocFind "m" d.source =
        some { kind := .number,
               cells := fun r => (assocFind r ([] : List (String × Cell))).getD none } ∧
      (docA.computed = [] → d.column_type "m" = .ok .number)) :=
  ⟨(c10_null_column_kind docA "n" [("r", none)] (by decide) (by decide)).1,
   (c10_null_column_kind docA "m" [] (by decide) (by decide)).1⟩

theorem computeAux_cyclic (cnames S src0 : List String)
    (hS : S ≠ []) :
    ∀ (fuel : Nat) (df : DF) (q : List (String × Formula)),
      (∀ n ∈ src0, (assocFind n df).isSome = true) →
      DFNumeric df →
      (∀ s ∈ S, s ∈ keysOf q) →
      (∀ s ∈ S, assocFind s df = none) →
      (∀ p ∈ q, (∀ x ∈ p.2.idents, x ∈ cnames ∨ x ∈ src0) ∧
        (p.1 ∈ S → ∃ x ∈ p.2.idents, x ∈ S)) →
      computeAux cnames fuel df q = .error .cyclicDependency := by
  intro fuel
  induction fuel with
  | zero =>
    intro df q hsrc hnum hqS hdfS hq
    cases q with
    | nil =>
      obtain ⟨s, hs⟩ := List.exists_mem_of_ne_nil S hS
      exact absurd (hqS s hs) (by simp [keysOf])
    | cons p rest => rfl
  | succ fuel ih =>
    intro df q hsrc hnum hqS hdfS hq
    cases q with
    | nil =>
      obtain ⟨s, hs⟩ := List.exists_mem_of_ne_nil S hS
      exact absurd (hqS s hs) (by simp [keysOf])
    | cons p rest =>
      obtain ⟨name, f⟩ := p
      have hpq := hq (name, f) (List.mem_cons_self _ _)
      unfold computeAux
      cases heval : evalExpr df f with
      | ok v =>
        have hnameS : name ∉ S := by
          intro hnS
          obtain ⟨x, hxf, hxS⟩ := hpq.2 hnS
          have hsome := evalExpr_ok_idents heval x hxf
          rw [hdfS x hxS] at hsome
          simp at hsome
        apply ih
        · intro n hn
          by_cases hnn : n = name
          · subst hnn
            rw [dfSet_find_self]
            rfl
          · rw [dfSet_find_ne _ _ hnn]
            exact hsrc n hn
        · intro n c hfind
          by_cases hnn : n = name
          · subst hnn
            rw [dfSet_find_self] at hfind
            cases hfind
            have hv := (evalExpr_numeric_total hnum f).1 v heval
            cases v with
            | scalar m => rfl
            | col c' => exact hv
          · rw [dfSet_find_ne _ _ hnn] at hfind
            exact hnum n c hfind
        · intro s hs
          have hmem := hqS s hs
          simp only [keysOf, List.map_cons, List.mem_cons] at hmem
          rcases hmem with h | h
          · exact absurd (h ▸ hs) hnameS
          · exact h
        · intro s hs
          by_cases hsn : s = name
          · exact absurd (hsn ▸ hs) hnameS
          · rw [dfSet_find_ne _ _ hsn]
            exact hdfS s hs
        · intro p hp
          exact hq p (List.mem_cons_of_mem _ hp)
      | error e =>
        cases e with
        | typeErr => exact absurd heval (evalExpr_numeric_total hnum f).2
        | nameErr x =>
          obtain ⟨hxf, hxn⟩ := evalExpr_nameErr heval
          have hxc : x ∈ cnames := by
            rcases hpq.1 x hxf with h | h
            · exact h
            · have hsome := hsrc x h
              rw [hxn] at hsome
              simp at hsome
          show (if x ∈ cnames then computeAux cnames fuel df (rest ++ [(name, f)])
              else .error (.undefinedName x)) = .error .cyclicDependency
          rw [if_pos hxc]
          apply ih
          · exact hsrc
          · exact hnum
          · intro s hs
            have hmem := hqS s hs
            simp only [keysOf, List.map_cons, List.mem_cons] at hmem
            simp only [keysOf, List.map_append, List.mem_append, List.map_cons,
              List.mem_singleton, List.map_nil, List.mem_cons, List.not_mem_nil, or_false]
            rcases hmem with h | h
            · right; exact h
            · left; exact h
          · exact hdfS
          · intro p hp
            rcases List.mem_append.mp hp with h | h
            · exact hq p (List.mem_cons_of_mem _ h)
            · have : p = (name, f) := by simpa using h
              subst this
              exact hpq

/-- C3 (amended): for every well-formed numeric document whose formulas
reference only known identifiers and whose FormulaMap contains a genuine
dependency cycle among computed columns (a nonempty set `S` of computed
names each of whose formulas references a member of `S`), evaluation
raises `CyclicDependencyError` — it never returns a table and never loops
forever, because the total number of evaluation attempts is bounded by
`n² + 1`, where `n` is the number of computed columns (the code raises
only once its attempt counter strictly exceeds `max_iter = n²`). -/
theorem c3_cycle_detection (doc : Doc) (S : List String)
    (hS : S ≠ [])
    (hSsub : ∀ s ∈ S, s ∈ doc.computedNames)
    (hdisj : ∀ n ∈ doc.computedNames, n ∉ doc.sourceNames)
    (hnum : ∀ p ∈ doc.source, p.2.kind = .number)
    (hknown : ∀ p ∈ doc.computed, ∀ x ∈ p.2.idents,
      x ∈ doc.computedNames ∨ x ∈ doc.sourceNames)
    (hcyc : ∀ p ∈ doc.computed, p.1 ∈ S → ∃ x ∈ p.2.idents, x ∈ S) :
    doc.compute = .error .cyclicDependency ∧
    doc.computeAttempts ≤ doc.computed.length ^ 2 + 1 := by
  constructor
  · unfold Doc.compute
    apply computeAux_cyclic doc.computedNames S doc.sourceNames hS
    · intro n hn
      exact assocFind_isSome.mpr hn
    · intro n c hfind
      exact hnum (n, c) (assocFind_mem hfind)
    · intro s hs
      exact hSsub s hs
    · intro s hs
      rw [assocFind_eq_none]
      exact hdisj s (hSsub s hs)
    · intro p hp
      exact ⟨fun x hx => hknown p hp x hx, hcyc p hp⟩
  · exact attemptsAux_le _ _ _ _

/-- C3 witness: the cycle document `docCyc` (with `S = {a, b}`) raises
`CyclicDependencyError` within the `n² + 1` attempt bound. -/
theorem c3_cycle_detection_witness :
    docCyc.compute = .error .cyclicDependency ∧
    docCyc.computeAttempts ≤ docCyc.computed.length ^ 2 + 1 :=
  c3_cycle_detection docCyc ["a", "b"] (by decide) (by decide) (by decide)
    (by decide) (by decide) (by decide)

theorem assocFind_of_mem_nodup {α : Type} {l : List (String × α)} {k : String} {v : α}
    (hnodup : (keysOf l).Nodup) (hmem : (k, v) ∈ l) : assocFind k l = some v := by
  induction l with
  | nil => simp at hmem
  | cons p rest ih =>
    obtain ⟨k₂, w⟩ := p
    rcases List.mem_cons.mp hmem with h | h
    · obtain ⟨h1, h2⟩ := Prod.mk.injEq .. ▸ h
      rw [assocFind_cons, if_pos (by injection h), ]
      injection h with ha hb
      rw [hb]
    · have hk : k ≠ k₂ := by
        intro hkk
        subst hkk
        have : k ∈ keysOf rest := by
          simp only [keysOf]
          exact List.mem_map_of_mem Prod.fst h
        simp only [keysOf, List.map_cons, List.nodup_cons] at hnodup
        exact hnodup.1 this
      rw [assocFind_cons, if_neg hk]
      apply ih
      · simp only [keysOf, List.map_cons, List.nodup_cons] at hnodup
        exact hnodup.2
      · exact h

theorem assocFind_graph {β : Type} (g : String → β) (l : List String) (r : String) :
    assocFind r (l.map (fun x => (x, g x))) = if r ∈ l then some (g r) else none := by
  induction l with
  | nil => simp [assocFind]
  | cons x xs ih =>
    simp only [List.map_cons]
    rw [assocFind_cons]
    by_cases h : r = x
    · subst h
      simp
    · rw [if_neg h, ih]
      simp [h]

theorem keysOf_graph {β : Type} (g : String → β) (l : List String) :
    keysOf (l.map (fun x => (x, g x))) = l := by
  induction l with
  | nil => rfl
  | cons x xs ih => simp [keysOf] at ih ⊢; exact ih

theorem computeAux_preserves (cnames : List String) {n : String} (hn : n ∉ cnames) :
    ∀ (fuel : Nat) (df : DF) (q : List (String × Formula)) (df' : DF),
      (∀ p ∈ q, p.1 ∈ cnames) → computeAux cnames fuel df q = .ok df' →
      assocFind n df' = assocFind n df := by
  intro fuel
  induction fuel with
  | zero =>
    intro df q df' hq h
    cases q with
    | nil =>
      simp only [computeAux, Except.ok.injEq] at h
      rw [h]
    | cons p rest => simp [computeAux] at h
  | succ fuel ih =>
    intro df q df' hq h
    cases q with
    | nil =>
      simp only [computeAux, Except.ok.injEq] at h
      rw [h]
    | cons p rest =>
      obtain ⟨name, f⟩ := p
      have hname : name ∈ cnames := hq (name, f) (List.mem_cons_self _ _)
      unfold computeAux at h
      cases heval : evalExpr df f with
      | ok v =>
        rw [heval] at h
        have hrec := ih (dfSet df name (toCol v)) rest df'
          (fun p hp => hq p (List.mem_cons_of_mem _ hp)) h
        rw [hrec, dfSet_find_ne _ _ (fun hnn : n = name => hn (hnn ▸ hname))]
      | error e =>
        rw [heval] at h
        cases e with
        | nameErr x =>
          replace h : (if x ∈ cnames then computeAux cnames fuel df (rest ++ [(name, f)])
              else Except.error (DErr.undefinedName x)) = .ok df' := h
          by_cases hx : x ∈ cnames
          · rw [if_pos hx] at h
            apply ih df (rest ++ [(name, f)]) df' _ h
            intro p hp
            rcases List.mem_append.mp hp with hp | hp
            · exact hq p (List.mem_cons_of_mem _ hp)
            · have : p = (name, f) := by simpa using hp
              rw [this]
              exact hname
          · rw [if_neg hx] at h
            simp at h
        | typeErr => simp at h

theorem mapExcept_ok {α β : Type} (f : α → Except DErr β) (g : α → β) :
    ∀ l : List α, (∀ a ∈ l, f a = .ok (g a)) → mapExcept f l = .ok (l.map g) := by
  intro l
  induction l with
  | nil => intro h; rfl
  | cons a rest ih =>
    intro h
    unfold mapExcept
    rw [h a (List.mem_cons_self _ _), ih (fun b hb => h b (List.mem_cons_of_mem _ hb))]
    rfl

theorem foldE_append {σ α : Type} (f : σ → α → Except DErr σ) (s : σ) (l₁ l₂ : List α) :
    foldE f s (l₁ ++ l₂) =
      match foldE f s l₁ with
      | .error e => .error e
      | .ok s₂ => foldE f s₂ l₂ := by
  induction l₁ generalizing s with
  | nil => simp [foldE]
  | cons a rest ih =>
    simp only [List.cons_append]
    show (match f s a with
        | Except.error e => Except.error e
        | Except.ok s₂ => foldE f s₂ (rest ++ l₂)) =
      match (match f s a with
        | Except.error e => Except.error e
        | Except.ok s₂ => foldE f s₂ rest) with
      | Except.error e => Except.error e
      | Except.ok s₂ => foldE f s₂ l₂
    cases f s a with
    | error e => rfl
    | ok s₂ => exact ih s₂

theorem foldE_cons {σ α : Type} (f : σ → α → Except DErr σ) (s : σ) (a : α) (l : List α) :
    foldE f s (a :: l) =
      match f s a with
      | .error e => .error e
      | .ok s₂ => foldE f s₂ l := rfl

theorem column_type_source (doc : Doc) (p : String × Col)
    (hp : p ∈ doc.source)
    (hnS : (keysOf doc.source).Nodup)
    (hnc : p.1 ∉ doc.computedNames)
    (df : DF) (hdf : doc.compute = .ok df) :
    doc.column_type p.1 = .ok p.2.kind ∧
      doc.column p.1 = .ok (doc.index.map (fun r => (r, p.2.cells r))) := by
  have hfind : assocFind p.1 doc.source = some p.2 :=
    assocFind_of_mem_nodup hnS (by rw [show (p.1, p.2) = p from rfl]; exact hp)
  have hpres := computeAux_preserves doc.computedNames hnc
    (doc.computed.length ^ 2 + 1) doc.source doc.computed df
    (fun q hq => List.mem_map_of_mem Prod.fst hq) hdf
  have hdfind : assocFind p.1 df = some p.2 := by rw [hpres]; exact hfind
  constructor
  · unfold Doc.column_type
    rw [hdf]
    show (match assocFind p.1 df with
      | some c => Except.ok c.kind
      | none => Except.error DErr.notFound) = Except.ok p.2.kind
    rw [hdfind]
  · unfold Doc.column
    rw [hdf]
    show (match assocFind p.1 df with
      | some c => Except.ok (doc.index.map (fun r => (r, c.cells r)))
      | none => Except.error DErr.notFound) =
      Except.ok (doc.index.map (fun r => (r, p.2.cells r)))
    rw [hdfind]

theorem save_eq (doc : Doc) (hnodup : doc.column_names.Nodup)
    (df : DF) (hdf : doc.compute = .ok df) :
    doc.save = .ok (saveDataOf doc) := by
  unfold Doc.column_names at hnodup
  obtain ⟨hnS, hnC, hdisj⟩ := List.nodup_append.mp hnodup
  have hmap := mapExcept_ok
    (fun p => do
      let k ← doc.column_type p.1
      let rows ← doc.column p.1
      pure (SavedCol.source p.1 k rows))
    (fun p => SavedCol.source p.1 p.2.kind (doc.index.map (fun r => (r, p.2.cells r))))
    doc.source
    (by
      intro p hp
      have hnc : p.1 ∉ doc.computedNames := fun hc =>
        hdisj (List.mem_map_of_mem Prod.fst hp) hc
      obtain ⟨hct, hcl⟩ := column_type_source doc p hp hnS hnc df hdf
      show (doc.column_type p.1).bind (fun k =>
        (doc.column p.1).bind (fun rows => pure (SavedCol.source p.1 k rows))) = _
      rw [hct, hcl]
      rfl)
  unfold Doc.save
  rw [hmap]
  rfl

theorem specValidate_saveDataOf (doc : Doc)
    (hkind : ∀ p ∈ doc.source, ∀ r, cellKindOk p.2.kind (p.2.cells r) = true) :
    specValidate (saveDataOf doc) = true := by
  unfold specValidate saveDataOf
  rw [List.all_eq_true]
  intro c hc
  simp only [List.mem_append, List.mem_map] at hc
  rcases hc with ⟨p, hp, hpc⟩ | ⟨p, hp, hpc⟩
  · subst hpc
    cases hk : p.2.kind with
    | number =>
      show (doc.index.map (fun r => (r, p.2.cells r))).all (fun q => cellNumOrNull q.2) = true
      rw [List.all_eq_true]
      intro q hq
      obtain ⟨r, _, hrq⟩ := List.mem_map.mp hq
      subst hrq
      have := hkind p hp r
      rw [hk] at this
      exact this
    | string =>
      show (doc.index.map (fun r => (r, p.2.cells r))).all (fun q => cellStrOrNull q.2) = true
      rw [List.all_eq_true]
      intro q hq
      obtain ⟨r, _, hrq⟩ := List.mem_map.mp hq
      subst hrq
      have := hkind p hp r
      rw [hk] at this
      exact this
  · subst hpc
    rfl

theorem foldE_computed (cl : List (String × Formula)) :
    ∀ base : Doc,
      (keysOf (base.computed ++ cl)).Nodup →
      (∀ p ∈ cl, isidentifier p.1 = true) →
      foldE fromDictStep base (cl.map (fun p => SavedCol.computed p.1 p.2)) =
        .ok { base with computed := base.computed ++ cl } := by
  induction cl with
  | nil =>
    intro base _ _
    simp [foldE]
  | cons p rest ih =>
    intro base hnodup hids
    obtain ⟨n, f⟩ := p
    have hid : isidentifier n = true := hids (n, f) (List.mem_cons_self _ _)
    have hnotin : n ∉ keysOf base.computed := by
      intro hin
      have : ¬ (keysOf (base.computed ++ (n, f) :: rest)).Nodup := by
        intro hnd
        obtain ⟨_, _, hdisj⟩ := List.nodup_append.mp (by
          simpa [keysOf] using hnd)
        exact hdisj hin (by simp [keysOf])
      exact this hnodup
    have hstep : fromDictStep base (SavedCol.computed n f) =
        .ok { base with computed := base.computed ++ [(n, f)] } := by
      have hnone : (assocFind n base.computed).isSome = false := by
        cases hfind : assocFind n base.computed with
        | none => rfl
        | some v =>
          exact absurd (assocFind_isSome.mp (by rw [hfind]; rfl)) hnotin
      unfold fromDictStep Doc.add_computed_column
      show (if (!isidentifier n) = true then Except.error DErr.invalidName
          else Except.ok { base with computed :=
            if (assocFind n base.computed).isSome = true then assocReplace n f base.computed
            else base.computed ++ [(n, f)] }) =
        Except.ok { base with computed := base.computed ++ [(n, f)] }
      rw [hid, hnone]
      simp
    have hrec := ih { base with computed := base.computed ++ [(n, f)] }
      (by simpa [keysOf] using hnodup)
      (fun q hq => hids q (List.mem_cons_of_mem _ hq))
    rw [List.map_cons, foldE_cons, hstep]
    exact hrec.trans (by simp)

theorem accSource_append (doc : Doc) (pre : List (String × Col)) (n : String) (c : Col) :
    accSource doc (pre ++ [(n, c)]) =
      { title := doc.title, course := doc.course, code := doc.code, date := doc.date,
        filename := none, index := doc.index, source := pre ++ [(n, c)], computed := [] } := by
  cases pre <;> rfl

theorem add_source_step (doc : Doc) (pre suf : List (String × Col)) (n : String) (c : Col)
    (hsplit : doc.source = pre ++ (n, c) :: suf)
    (hnodupS : (keysOf doc.source).Nodup)
    (hid : isidentifier n = true)
    (hkind : ∀ r, cellKindOk c.kind (c.cells r) = true)
    (hoff : ∀ r, r ∉ doc.index → c.cells r = none)
    (hstr : c.kind = .string → ∃ r ∈ doc.index, ∃ s, c.cells r = some (.str s)) :
    (accSource doc pre).add_source_column n (doc.index.map (fun r => (r, c.cells r))) =
      .ok (accSource doc (pre ++ [(n, c)])) := by
  have hcells : (fun r => (assocFind r (doc.index.map (fun x => (x, c.cells x)))).getD none)
      = c.cells := by
    funext r
    rw [assocFind_graph]
    by_cases hr : r ∈ doc.index
    · rw [if_pos hr]
      rfl
    · rw [if_neg hr, hoff r hr]
      rfl
  have hn_pre : (assocFind n pre).isSome = false := by
    cases hfind : assocFind n pre with
    | none => rfl
    | some v =>
      exfalso
      have hmem : n ∈ keysOf pre := assocFind_isSome.mp (by rw [hfind]; rfl)
      have hnd : (keysOf (pre ++ (n, c) :: suf)).Nodup := by rw [← hsplit]; exact hnodupS
      rw [show keysOf (pre ++ (n, c) :: suf) = keysOf pre ++ keysOf ((n, c) :: suf) by
        simp [keysOf]] at hnd
      obtain ⟨_, _, hdisj⟩ := List.nodup_append.mp hnd
      exact hdisj hmem (by simp [keysOf])
  have hidx_eq : (if (accSource doc pre).index = [] ∧
        doc.index.map (fun x => (x, c.cells x)) ≠ [] then
      keysOf (doc.index.map (fun x => (x, c.cells x)))
    else (accSource doc pre).index) = doc.index := by
    cases pre with
    | nil =>
      by_cases hi : doc.index = []
      · rw [if_neg (by simp [accSource, hi])]
        simp [accSource, hi]
      · rw [if_pos (by simp [accSource, hi]), keysOf_graph]
    | cons p pre' =>
      by_cases hi : doc.index = [] <;> rw [if_neg (by simp [accSource, hi])] <;> rfl
  have hsrc_eq : ∀ kind, kind = c.kind →
      dfSet (accSource doc pre).source n
        { kind := kind,
          cells := fun r => (assocFind r (doc.index.map (fun x => (x, c.cells x)))).getD none }
        = pre ++ [(n, c)] := by
    intro kind hkeq
    show dfSet pre n _ = _
    unfold dfSet
    rw [hn_pre]
    simp only [Bool.false_eq_true, if_false]
    rw [hcells, hkeq]
  unfold Doc.add_source_column
  rw [if_neg (by rw [hid]; simp)]
  cases hk : c.kind with
  | number =>
    rw [if_pos (by
      rw [List.all_eq_true]
      intro q hq
      obtain ⟨r, hr, rfl⟩ := List.mem_map.mp hq
      have hck := hkind r
      rw [hk] at hck
      exact hck)]
    rw [accSource_append]
    rw [hidx_eq, hsrc_eq .number hk.symm]
    rfl
  | string =>
    have hnumFail : ((doc.index.map (fun x => (x, c.cells x))).all
        (fun p => cellNumOrNull p.2)) = false := by
      obtain ⟨r₀, hr₀, s₀, hs₀⟩ := hstr hk
      cases hres : ((doc.index.map (fun x => (x, c.cells x))).all
          (fun p => cellNumOrNull p.2)) with
      | false => rfl
      | true =>
        exfalso
        rw [List.all_eq_true] at hres
        have hcontra := hres (r₀, c.cells r₀) (List.mem_map_of_mem _ hr₀)
        rw [show (r₀, c.cells r₀).2 = c.cells r₀ from rfl, hs₀] at hcontra
        simp [cellNumOrNull] at hcontra
    rw [if_neg (by rw [hnumFail]; simp)]
    rw [if_pos (by
      rw [List.all_eq_true]
      intro q hq
      obtain ⟨r, hr, rfl⟩ := List.mem_map.mp hq
      have hck := hkind r
      rw [hk] at hck
      exact hck)]
    rw [accSource_append]
    rw [hidx_eq, hsrc_eq .string hk.symm]
    rfl

theorem foldE_source (doc : Doc)
    (hnodupS : (keysOf doc.source).Nodup)
    (hids : ∀ p ∈ doc.source, isidentifier p.1 = true)
    (hkind : ∀ p ∈ doc.source, ∀ r, cellKindOk p.2.kind (p.2.cells r) = true)
    (hoff : ∀ p ∈ doc.source, ∀ r, r ∉ doc.index → p.2.cells r = none)
    (hstr : ∀ p ∈ doc.source, p.2.kind = .string →
      ∃ r ∈ doc.index, ∃ s, p.2.cells r = some (.str s)) :
    ∀ (suf pre : List (String × Col)), doc.source = pre ++ suf →
      foldE fromDictStep (accSource doc pre)
        (suf.map (fun p => SavedCol.source p.1 p.2.kind
          (doc.index.map (fun r => (r, p.2.cells r))))) =
        .ok (accSource doc doc.source) := by
  intro suf
  induction suf with
  | nil =>
    intro pre hsplit
    rw [List.append_nil] at hsplit
    rw [← hsplit]
    rfl
  | cons p suf' ih =>
    intro pre hsplit
    obtain ⟨n, c⟩ := p
    have hpmem : (n, c) ∈ doc.source := by
      rw [hsplit]
      exact List.mem_append_right _ (List.mem_cons_self _ _)
    have hstep := add_source_step doc pre suf' n c hsplit hnodupS
      (hids (n, c) hpmem) (fun r => hkind (n, c) hpmem r)
      (fun r hr => hoff (n, c) hpmem r hr) (fun hkk => hstr (n, c) hpmem hkk)
    have hstep' : fromDictStep (accSource doc pre)
        (SavedCol.source n c.kind (doc.index.map (fun r => (r, c.cells r)))) =
        .ok (accSource doc (pre ++ [(n, c)])) := hstep
    rw [List.map_cons, foldE_cons, hstep']
    exact ih (pre ++ [(n, c)]) (by rw [List.append_assoc]; exact hsplit)

/-- A nonempty association list stays nonempty under in-place replace. -/
theorem assocReplace_eq_nil {α : Type} (n : String) (c : α) (l : List (String × α))
    (h : assocReplace n c l = []) : l = [] := by
  cases l with
  | nil => rfl
  | cons p rest =>
    obtain ⟨k, v⟩ := p
    unfold assocReplace at h
    split at h <;> cases h

/-- `df[name] = col` never leaves the frame without columns. -/
theorem dfSet_ne_nil (df : DF) (n : String) (c : Col) : dfSet df n c ≠ [] := by
  intro hnil
  by_cases hm : n ∈ keysOf df
  · have h1 := keysOf_dfSet_mem df c hm
    rw [hnil] at h1
    rw [← h1] at hm
    simp [keysOf] at hm
  · have h1 := keysOf_dfSet_not_mem df c hm
    rw [hnil] at h1
    simp [keysOf] at h1

/-- A successful `add_source_column` leaves at least one source column. -/
theorem add_source_column_src_ne (doc : Doc) (n : String) (rows : List (String × Cell))
    (d' : Doc) (h : doc.add_source_column n rows = .ok d') : d'.source ≠ [] := by
  unfold Doc.add_source_column at h
  split at h
  · cases h
  · split at h
    · cases h
      exact dfSet_ne_nil doc.source n _
    · split at h
      · cases h
        exact dfSet_ne_nil doc.source n _
      · cases h

/-- A successful `add_computed_column` leaves frame and index untouched. -/
theorem add_computed_column_frame (doc : Doc) (n : String) (f : Formula) (d' : Doc)
    (h : doc.add_computed_column n f = .ok d') :
    d'.source = doc.source ∧ d'.index = doc.index := by
  unfold Doc.add_computed_column at h
  split at h
  · cases h
  · cases h
    exact ⟨rfl, rfl⟩

/-- A successful `add_row` leaves at least one source column. -/
theorem add_row_src_ne (doc : Doc) (r : String) (d' : Doc)
    (h : doc.add_row r = .ok d') : d'.source ≠ [] := by
  unfold Doc.add_row at h
  split at h
  · cases h
  · split at h
    · cases h
    · rename_i h1 h2
      cases h
      intro hnil
      simp at hnil
      exact h2 (by simp [keysOf, hnil])

/-- A successful `set_formula` leaves frame and index untouched. -/
theorem set_formula_frame (doc : Doc) (n : String) (f : Formula) (d' : Doc)
    (h : doc.set_formula n f = .ok d') :
    d'.source = doc.source ∧ d'.index = doc.index := by
  unfold Doc.set_formula at h
  split at h
  · cases h
    exact ⟨rfl, rfl⟩
  · cases h

/-- A successful cell write leaves at least one source column. -/
theorem setCell_src_ne (doc : Doc) (r c : String) (v : Val) (d' : Doc)
    (h : doc.setCell r c v = .ok d') : d'.source ≠ [] := by
  unfold Doc.setCell at h
  split at h
  · rename_i col hcol
    split at h
    · cases h
    · split at h
      · cases h
      · cases h
        intro hnil
        simp at hnil
        rw [assocReplace_eq_nil _ _ _ hnil] at hcol
        simp [assocFind] at hcol
  · split at h
    · cases h
    · split at h
      · cases h
      · cases h
        simp

/-- `foldE` preserves any invariant each step preserves. -/
theorem foldE_inv {σ α : Type} (P : σ → Prop) (f : σ → α → Except DErr σ)
    (hstep : ∀ s a s', P s → f s a = .ok s' → P s') :
    ∀ (l : List α) (s s' : σ), P s → foldE f s l = .ok s' → P s' := by
  intro l
  induction l with
  | nil =>
    intro s s' hP h
    replace h : Except.ok s = Except.ok s' := h
    cases h
    exact hP
  | cons a rest ih =>
    intro s s' hP h
    rw [foldE_cons] at h
    cases hfa : f s a with
    | error e =>
      rw [hfa] at h
      replace h : (Except.error e : Except DErr σ) = Except.ok s' := h
      cases h
    | ok s₂ =>
      rw [hfa] at h
      replace h : foldE f s₂ rest = Except.ok s' := h
      exact ih s₂ s' (hstep s a s₂ hP hfa) h

/-- One `from_dict` step preserves the has-source-or-empty-index
invariant. -/
theorem fromDictStep_inv (d : Doc) (c : SavedCol) (d' : Doc)
    (hP : d.source ≠ [] ∨ d.index = []) (h : fromDictStep d c = .ok d') :
    d'.source ≠ [] ∨ d'.index = [] := by
  cases c with
  | source n dt rows => exact Or.inl (add_source_column_src_ne d n rows d' h)
  | computed n f =>
    obtain ⟨h1, h2⟩ := add_computed_column_frame d n f d' h
    rw [h1, h2]
    exact hP

/-- Every API-reachable document has a source column or an empty index:
`add_row` on a column-less frame raises the pandas `ValueError` before
mutating anything, and every other operation preserves the invariant, so
a document holding rows but no source columns never arises. -/
theorem reachable_index_source (d : Doc) (h : Reachable d) :
    d.source ≠ [] ∨ d.index = [] := by
  induction h with
  | init t c k dt => exact Or.inr rfl
  | add_source d n rows d' hr hok ih => exact Or.inl (add_source_column_src_ne d n rows d' hok)
  | add_computed d n f d' hr hok ih =>
    obtain ⟨h1, h2⟩ := add_computed_column_frame d n f d' hok
    rw [h1, h2]
    exact ih
  | add_row d r d' hr hok ih => exact Or.inl (add_row_src_ne d r d' hok)
  | set_formula d n f d' hr hok ih =>
    obtain ⟨h1, h2⟩ := set_formula_frame d n f d' hok
    rw [h1, h2]
    exact ih
  | set_cell d r c v d' hr hok ih => exact Or.inl (setCell_src_ne d r c v d' hok)
  | from_file data path d' hok =>
    unfold Doc.from_file at hok
    cases hfd : Doc.from_dict data with
    | error e =>
      rw [hfd] at hok
      replace hok : (Except.error e : Except DErr Doc) = Except.ok d' := hok
      cases hok
    | ok d₀ =>
      rw [hfd] at hok
      replace hok : Except.ok { d₀ with filename := some path } = Except.ok d' := hok
      cases hok
      have hP : d₀.source ≠ [] ∨ d₀.index = [] := by
        unfold Doc.from_dict at hfd
        split at hfd
        · cases hfd
        · exact foldE_inv (fun x => x.source ≠ [] ∨ x.index = []) fromDictStep
            (fun s a s' hp hk => fromDictStep_inv s a s' hp hk)
            data.columns _ d₀ (Or.inr rfl) hfd
      exact hP

/-- C1: for every valid document — well-formed, evaluating successfully,
and having a source column or an empty index (the invariant every
document constructible through the public API satisfies, by
`reachable_index_source`: `add_row` on a column-less frame raises the
pandas `ValueError` "cannot set a frame with no defined columns" before
mutating anything) — `save` followed by `from_file` reproduces the
document exactly (up to the recorded filename): the reloaded document
has the same `column_names`, the same `indexes`, the same source columns
(hence every cell value, with NaN normalized to null and back), the same
formula map (every formula text), and the same metadata (title, course,
code, datetime).  The validation of the reload is against `schema.json`,
which is not under `src/` and is modelled from the spec by
`specValidate`. -/
theorem c1_round_trip (doc : Doc) (hWF : DocWF doc)
    (df : DF) (hdf : doc.compute = .ok df)
    (hnz : doc.source ≠ [] ∨ doc.index = []) (path : String) :
    doc.save = .ok (saveDataOf doc) ∧
      Doc.from_file (saveDataOf doc) path = .ok { doc with filename := some path } := by
  obtain ⟨hnI, hnN, hidsAll, hkindAll, hoffAll, hstrAll⟩ := hWF
  have hsave := save_eq doc hnN df hdf
  refine ⟨hsave, ?_⟩
  have hnN' := hnN
  unfold Doc.column_names at hnN'
  obtain ⟨hnS, hnC, hdisjSC⟩ := List.nodup_append.mp hnN'
  have hval : specValidate (saveDataOf doc) = true := specValidate_saveDataOf doc hkindAll
  have hinit : Doc.init (saveDataOf doc).title (saveDataOf doc).course
      (saveDataOf doc).code (saveDataOf doc).date = accSource doc [] := rfl
  have hphase1 := foldE_source doc hnS
    (fun p hp => hidsAll p.1 (List.mem_append_left _ (List.mem_map_of_mem Prod.fst hp)))
    hkindAll hoffAll hstrAll doc.source [] rfl
  have hbase : accSource doc doc.source =
      { doc with filename := none, computed := ([] : List (String × Formula)) } := by
    cases hsrc : doc.source with
    | nil =>
      rcases hnz with h | h
      · exact absurd hsrc h
      · rw [h]
        rfl
    | cons p ps => rfl
  have hphase2 := foldE_computed doc.computed
    { doc with filename := none, computed := ([] : List (String × Formula)) }
    (by
      show (keysOf (([] : List (String × Formula)) ++ doc.computed)).Nodup
      rw [List.nil_append]
      exact hnC)
    (fun p hp => hidsAll p.1 (List.mem_append_right _ (List.mem_map_of_mem Prod.fst hp)))
  have hfd : Doc.from_dict (saveDataOf doc) = .ok { doc with filename := none } := by
    unfold Doc.from_dict
    rw [if_neg (by rw [hval]; simp)]
    rw [show (saveDataOf doc).columns =
      (doc.source.map (fun p => SavedCol.source p.1 p.2.kind
        (doc.index.map (fun r => (r, p.2.cells r))))) ++
      doc.computed.map (fun p => SavedCol.computed p.1 p.2) from rfl]
    rw [foldE_append, hinit, hphase1, hbase]
    show foldE fromDictStep
        { doc with filename := none, computed := ([] : List (String × Formula)) }
        (doc.computed.map (fun p => SavedCol.computed p.1 p.2)) =
      .ok { doc with filename := none }
    rw [hphase2]
    rfl
  unfold Doc.from_file
  rw [hfd]
  rfl

/-- C1 witness: the two-column document `docRT` (a numeric and a string
source column with a null each, plus a computed column) saves and reloads
to itself. -/
theorem c1_round_trip_witness :
    docRT.save = .ok (saveDataOf docRT) ∧
    Doc.from_file (saveDataOf docRT) "t.json" = .ok { docRT with filename := some "t.json" } := by
  have hwf : DocWF docRT := by
    refine ⟨by decide, by decide, by decide, ?_, ?_, ?_⟩
    · intro p hp r
      simp only [docRT, List.mem_cons, List.not_mem_nil, or_false] at hp
      rcases hp with rfl | rfl <;>
        (by_cases hr : r = "r" <;> simp [hr, cellKindOk, cellNumOrNull, cellStrOrNull])
    · intro p hp r hr
      simp only [docRT, List.mem_cons, List.not_mem_nil, or_false] at hp
      have hr1 : r ≠ "r" := by
        intro hh
        apply hr
        rw [hh]
        simp [docRT]
      rcases hp with rfl | rfl <;> simp [hr1]
    · intro p hp hk
      simp only [docRT, List.mem_cons, List.not_mem_nil, or_false] at hp
      rcases hp with rfl | rfl
      · exact absurd hk (by decide)
      · exact ⟨"r", by simp [docRT], "hi", by simp⟩
  obtain ⟨df, hdf⟩ : ∃ df, docRT.compute = .ok df := ⟨_, rfl⟩
  exact c1_round_trip docRT hwf df hdf (Or.inl (by intro h; simp [docRT] at h)) "t.json"

theorem tri_bound : ∀ n : Nat, n + tri n ≤ n ^ 2 + 1 := by
  intro n
  induction n with
  | zero => simp [tri]
  | succ n ih =>
    have h2 : (n + 1) ^ 2 = n ^ 2 + 2 * n + 1 := by ring
    have h3 : tri (n + 1) = n + tri n := rfl
    omega

theorem topoOk_known (srcN : List String) :
    ∀ (ord : List (String × Formula)) (done : List String),
      topoOk srcN done ord = true →
      ∀ p ∈ ord, ∀ x ∈ p.2.idents, x ∈ srcN ∨ x ∈ done ∨ x ∈ keysOf ord := by
  intro ord
  induction ord with
  | nil => intro done _ p hp; simp at hp
  | cons q rest ih =>
    intro done htopo p hp x hx
    obtain ⟨c, f⟩ := q
    unfold topoOk at htopo
    rw [Bool.and_eq_true] at htopo
    rcases List.mem_cons.mp hp with hq | hq
    · subst hq
      have := List.all_eq_true.mp htopo.1 x hx
      rw [decide_eq_true_eq] at this
      rcases this with h | h
      · exact Or.inl h
      · exact Or.inr (Or.inl h)
    · rcases ih (done ++ [c]) htopo.2 p hq x hx with h | h | h
      · exact Or.inl h
      · rcases List.mem_append.mp h with h | h
        · exact Or.inr (Or.inl h)
        · refine Or.inr (Or.inr ?_)
          simp only [List.mem_singleton] at h
          subst h
          simp [keysOf]
      · refine Or.inr (Or.inr ?_)
        simp [keysOf] at h ⊢
        exact Or.inr h

theorem existsReady (df : DF) (srcN : List String)
    (hsrc : ∀ n ∈ srcN, (assocFind n df).isSome = true) :
    ∀ (ord : List (String × Formula)) (done : List String),
      (keysOf ord).Nodup →
      topoOk srcN done ord = true →
      (∀ n ∈ done, (assocFind n df).isSome = true) →
      ∀ pend, (∀ p ∈ pend, p ∈ ord) → pend ≠ [] →
        (∀ p ∈ ord, p.1 ∉ keysOf pend → (assocFind p.1 df).isSome = true) →
        ∃ p ∈ pend, ∀ x ∈ p.2.idents, (assocFind x df).isSome = true := by
  intro ord
  induction ord with
  | nil =>
    intro done _ _ _ pend hsub hne _
    obtain ⟨p, hp⟩ := List.exists_mem_of_ne_nil pend hne
    exact absurd (hsub p hp) (by simp)
  | cons q rest ih =>
    intro done hnodup htopo hdone pend hsub hne hcov
    obtain ⟨c, f⟩ := q
    unfold topoOk at htopo
    rw [Bool.and_eq_true] at htopo
    by_cases hcf : (c, f) ∈ pend
    · refine ⟨(c, f), hcf, ?_⟩
      intro x hx
      have := List.all_eq_true.mp htopo.1 x hx
      rw [decide_eq_true_eq] at this
      rcases this with h | h
      · exact hsrc x h
      · exact hdone x h
    · have hcnot : c ∉ keysOf pend := by
        intro hc
        simp only [keysOf, List.mem_map] at hc
        obtain ⟨p, hp, hp1⟩ := hc
        have hpord := hsub p hp
        rcases List.mem_cons.mp hpord with h | h
        · exact hcf (h ▸ hp)
        · have : c ∈ keysOf rest := by
            rw [← hp1]
            exact List.mem_map_of_mem Prod.fst h
          simp only [keysOf, List.map_cons, List.nodup_cons] at hnodup
          exact hnodup.1 this
      have hcsome : (assocFind c df).isSome = true :=
        hcov (c, f) (List.mem_cons_self _ _) hcnot
      apply ih (done ++ [c])
        (by simp only [keysOf, List.map_cons, List.nodup_cons] at hnodup; exact hnodup.2)
        htopo.2
        (by
          intro n hn
          rcases List.mem_append.mp hn with h | h
          · exact hdone n h
          · simp only [List.mem_singleton] at h
            subst h
            exact hcsome)
        pend
        (by
          intro p hp
          rcases List.mem_cons.mp (hsub p hp) with h | h
          · exact absurd (h ▸ hp) hcf
          · exact h)
        hne
        (fun p hp hnp => hcov p (List.mem_cons_of_mem _ hp) hnp)

theorem buildCanonical_spec :
    ∀ (ord : List (String × Formula)) (df₀ dfC : DF),
      (keysOf ord).Nodup →
      (∀ c ∈ keysOf ord, assocFind c df₀ = none) →
      buildCanonical df₀ ord = .ok dfC →
      (∀ n, (assocFind n df₀).isSome = true → assocFind n dfC = assocFind n df₀) ∧
      (∀ n, (assocFind n dfC).isSome = true →
        (assocFind n df₀).isSome = true ∨ n ∈ keysOf ord) ∧
      (∀ p ∈ ord, ∃ v, evalExpr dfC p.2 = .ok v ∧ assocFind p.1 dfC = some (toCol v)) := by
  intro ord
  induction ord with
  | nil =>
    intro df₀ dfC _ _ hbuild
    simp only [buildCanonical, Except.ok.injEq] at hbuild
    subst hbuild
    exact ⟨fun n _ => rfl, fun n h => Or.inl h, by simp⟩
  | cons q rest ih =>
    intro df₀ dfC hnodup hfresh hbuild
    obtain ⟨c, f⟩ := q
    unfold buildCanonical at hbuild
    cases heval : evalExpr df₀ f with
    | error e => rw [heval] at hbuild; simp at hbuild
    | ok v₀ =>
      rw [heval] at hbuild
      have hcnone : assocFind c df₀ = none := hfresh c (by simp [keysOf])
      have hnodup' : (keysOf rest).Nodup := by
        simp only [keysOf, List.map_cons, List.nodup_cons] at hnodup
        exact hnodup.2
      have hcrest : c ∉ keysOf rest := by
        simp only [keysOf, List.map_cons, List.nodup_cons] at hnodup
        exact hnodup.1
      have hfresh' : ∀ c' ∈ keysOf rest, assocFind c' (dfSet df₀ c (toCol v₀)) = none := by
        intro c' hc'
        rw [dfSet_find_ne _ _ (fun h : c' = c => hcrest (h ▸ hc'))]
        exact hfresh c' (by
          simp only [keysOf, List.map_cons]
          exact List.mem_cons_of_mem _ hc')
      obtain ⟨ihA, ihB, ihC⟩ := ih (dfSet df₀ c (toCol v₀)) dfC hnodup' hfresh' hbuild
      have hAc : assocFind c dfC = some (toCol v₀) := by
        rw [ihA c (by rw [dfSet_find_self]; rfl), dfSet_find_self]
      have hA : ∀ n, (assocFind n df₀).isSome = true → assocFind n dfC = assocFind n df₀ := by
        intro n hn
        have hnc : n ≠ c := by
          intro h
          rw [h, hcnone] at hn
          simp at hn
        rw [ihA n (by rw [dfSet_find_ne _ _ hnc]; exact hn), dfSet_find_ne _ _ hnc]
      refine ⟨hA, ?_, ?_⟩
      · intro n hn
        rcases ihB n hn with h | h
        · by_cases hnc : n = c
          · subst hnc
            exact Or.inr (by simp [keysOf])
          · rw [dfSet_find_ne _ _ hnc] at h
            exact Or.inl h
        · exact Or.inr (by
            simp only [keysOf, List.map_cons]
            exact List.mem_cons_of_mem _ h)
      · intro p hp
        rcases List.mem_cons.mp hp with h | h
        · subst h
          refine ⟨v₀, ?_, hAc⟩
          have hidents := evalExpr_ok_idents heval
          rcases @evalAgree df₀ dfC _ _
            (fun x hx _ => hA x (hidents x hx)) heval with hok | ⟨y, hy, hynone, _⟩
          · exact hok
          · have := hidents y hy
            rw [← hA y this] at this
            rw [hynone] at this
            simp at this
        · exact ihC p h

theorem computeAuxOk (cnames srcN : List String) (ord : List (String × Formula)) (dfC : DF)
    (hOrdNodup : (keysOf ord).Nodup)
    (htopo : topoOk srcN [] ord = true)
    (hcn : ∀ c, c ∈ cnames ↔ c ∈ keysOf ord)
    (HC : ∀ p ∈ ord, ∃ v, evalExpr dfC p.2 = .ok v ∧ assocFind p.1 dfC = some (toCol v)) :
    ∀ (fuel : Nat) (df : DF) (pend : List (String × Formula)),
      (∀ n ∈ srcN, (assocFind n df).isSome = true) →
      (∀ n, (assocFind n df).isSome = true → assocFind n df = assocFind n dfC) →
      (∀ p ∈ pend, p ∈ ord) →
      (keysOf pend).Nodup →
      (∀ p ∈ ord, p.1 ∉ keysOf pend → (assocFind p.1 df).isSome = true) →
      (∀ p ∈ pend, assocFind p.1 df = none) →
      (pend = [] ∨ ∃ q1 e q2, pend = q1 ++ e :: q2 ∧
        (∀ x ∈ e.2.idents, (assocFind x df).isSome = true) ∧
        q1.length + 1 + tri pend.length ≤ fuel) →
      ∃ df', computeAux cnames fuel df pend = .ok df' ∧
        (∀ n ∈ srcN, (assocFind n df').isSome = true) ∧
        (∀ n, (assocFind n df').isSome = true → assocFind n df' = assocFind n dfC) ∧
        (∀ p ∈ ord, (assocFind p.1 df').isSome = true) := by
  intro fuel
  induction fuel with
  | zero =>
    intro df pend hsrc hagr hsub hnodupP hcov hpnone hfr
    cases pend with
    | nil =>
      exact ⟨df, rfl, hsrc, hagr, fun p hp => hcov p hp (by simp [keysOf])⟩
    | cons hd rest =>
      rcases hfr with h | ⟨q1, e, q2, hsplitQ, hready, hfuel⟩
      · simp at h
      · omega
  | succ F ih =>
    intro df pend hsrc hagr hsub hnodupP hcov hpnone hfr
    cases pend with
    | nil =>
      exact ⟨df, rfl, hsrc, hagr, fun p hp => hcov p hp (by simp [keysOf])⟩
    | cons hd rest =>
      obtain ⟨c₀, f₀⟩ := hd
      rcases hfr with h | ⟨q1, e, q2, hsplitQ, hready, hfuel⟩
      · simp at h
      · have hhd : (c₀, f₀) ∈ ord := hsub _ (List.mem_cons_self _ _)
        obtain ⟨v₀, hvC, hfindC⟩ := HC _ hhd
        have hagree : ∀ x ∈ (Formula.idents f₀), (assocFind x df).isSome = true →
            assocFind x df = assocFind x dfC := fun x _ hx => hagr x hx
        have hc₀none : assocFind c₀ df = none := hpnone _ (List.mem_cons_self _ _)
        have hc₀keys : c₀ ∉ keysOf rest := by
          simp only [keysOf, List.map_cons, List.nodup_cons] at hnodupP
          exact hnodupP.1
        have hrestNodup : (keysOf rest).Nodup := by
          simp only [keysOf, List.map_cons, List.nodup_cons] at hnodupP
          exact hnodupP.2
        rcases evalAgree hagree hvC with hok | ⟨y, hy, hynone, herr⟩
        · -- the head evaluates: materialize it with its canonical value
          have hsrc' : ∀ n ∈ srcN, (assocFind n (dfSet df c₀ (toCol v₀))).isSome = true := by
            intro n hn
            by_cases hnc : n = c₀
            · subst hnc
              rw [dfSet_find_self]
              rfl
            · rw [dfSet_find_ne _ _ hnc]
              exact hsrc n hn
          have hagr' : ∀ n, (assocFind n (dfSet df c₀ (toCol v₀))).isSome = true →
              assocFind n (dfSet df c₀ (toCol v₀)) = assocFind n dfC := by
            intro n hn
            by_cases hnc : n = c₀
            · subst hnc
              rw [dfSet_find_self, hfindC]
            · rw [dfSet_find_ne _ _ hnc] at hn ⊢
              exact hagr n hn
          have hcov' : ∀ p ∈ ord, p.1 ∉ keysOf rest →
              (assocFind p.1 (dfSet df c₀ (toCol v₀))).isSome = true := by
            intro p hp hnp
            by_cases hpc : p.1 = c₀
            · rw [hpc, dfSet_find_self]
              rfl
            · rw [dfSet_find_ne _ _ hpc]
              apply hcov p hp
              simp only [keysOf, List.map_cons, List.mem_cons]
              rintro (h | h)
              · exact hpc h
              · exact hnp h
          have hpnone' : ∀ p ∈ rest, assocFind p.1 (dfSet df c₀ (toCol v₀)) = none := by
            intro p hp
            have hpc : p.1 ≠ c₀ := fun h => hc₀keys (h ▸ List.mem_map_of_mem Prod.fst hp)
            rw [dfSet_find_ne _ _ hpc]
            exact hpnone p (List.mem_cons_of_mem _ hp)
          have hfr' : rest = [] ∨ ∃ q1' e' q2', rest = q1' ++ e' :: q2' ∧
              (∀ x ∈ e'.2.idents, (assocFind x (dfSet df c₀ (toCol v₀))).isSome = true) ∧
              q1'.length + 1 + tri rest.length ≤ F := by
            rcases eq_or_ne rest [] with hrest | hrest
            · exact Or.inl hrest
            · right
              obtain ⟨e', he', hready'⟩ := existsReady (dfSet df c₀ (toCol v₀)) srcN hsrc'
                ord [] hOrdNodup htopo (by simp) rest
                (fun p hp => hsub p (List.mem_cons_of_mem _ hp))
                hrest
                hcov'
              obtain ⟨s, t, hst⟩ := List.append_of_mem he'
              refine ⟨s, e', t, hst, hready', ?_⟩
              have hlen : rest.length = s.length + 1 + t.length := by
                rw [hst]
                simp
                omega
              have ht1 : tri (rest.length + 1) = rest.length + tri rest.length := rfl
              simp only [List.length_cons] at hfuel
              omega
          obtain ⟨df', hrun, hP1, hP2, hP3⟩ := ih (dfSet df c₀ (toCol v₀)) rest
            hsrc' hagr' (fun p hp => hsub p (List.mem_cons_of_mem _ hp))
            hrestNodup hcov' hpnone' hfr'
          refine ⟨df', ?_, hP1, hP2, hP3⟩
          show computeAux cnames (F + 1) df ((c₀, f₀) :: rest) = .ok df'
          unfold computeAux
          rw [hok]
          exact hrun
        · -- the head is not ready: it is pushed back
          have hyknown := topoOk_known srcN ord [] htopo _ hhd y hy
          have hysrc : y ∉ srcN := by
            intro hsy
            have := hsrc y hsy
            rw [hynone] at this
            simp at this
          have hyc : y ∈ cnames := by
            rcases hyknown with h | h | h
            · exact absurd h hysrc
            · simp at h
            · exact (hcn y).mpr h
          have hq1ne : q1 ≠ [] := by
            intro hq1
            rw [hq1, List.nil_append] at hsplitQ
            obtain ⟨he, _⟩ := List.cons.injEq .. ▸ hsplitQ
            have := hready y (he ▸ hy)
            rw [hynone] at this
            simp at this
          obtain ⟨e1, q1', hq1⟩ := List.exists_cons_of_ne_nil hq1ne
          rw [hq1, List.cons_append] at hsplitQ
          have he1 : (c₀, f₀) = e1 := (List.cons.injEq .. ▸ hsplitQ).1
          have hrest : rest = q1' ++ e :: q2 := (List.cons.injEq .. ▸ hsplitQ).2
          have hnodup' : (keysOf (rest ++ [(c₀, f₀)])).Nodup := by
            have hperm : List.Perm (keysOf (rest ++ [(c₀, f₀)])) (keysOf ((c₀, f₀) :: rest)) := by
              simp only [keysOf, List.map_append, List.map_cons, List.map_nil]
              exact List.perm_append_singleton _ _
            exact hperm.symm.nodup hnodupP
          have hkeyset : ∀ m, m ∈ keysOf (rest ++ [(c₀, f₀)]) ↔
              m ∈ keysOf ((c₀, f₀) :: rest) := by
            intro m
            simp only [keysOf, List.map_append, List.map_cons, List.map_nil,
              List.mem_append, List.mem_cons, List.mem_singleton, List.not_mem_nil, or_false]
            tauto
          have hsub' : ∀ p ∈ rest ++ [(c₀, f₀)], p ∈ ord := by
            intro p hp
            rcases List.mem_append.mp hp with h | h
            · exact hsub p (List.mem_cons_of_mem _ h)
            · have : p = (c₀, f₀) := by simpa using h
              rw [this]
              exact hhd
          have hcov' : ∀ p ∈ ord, p.1 ∉ keysOf (rest ++ [(c₀, f₀)]) →
              (assocFind p.1 df).isSome = true := by
            intro p hp hnp
            exact hcov p hp (fun hmem => hnp ((hkeyset p.1).mpr hmem))
          have hpnone' : ∀ p ∈ rest ++ [(c₀, f₀)], assocFind p.1 df = none := by
            intro p hp
            rcases List.mem_append.mp hp with h | h
            · exact hpnone p (List.mem_cons_of_mem _ h)
            · have : p = (c₀, f₀) := by simpa using h
              rw [this]
              exact hc₀none
          have hfr' : rest ++ [(c₀, f₀)] = [] ∨ ∃ q1'' e'' q2'',
              rest ++ [(c₀, f₀)] = q1'' ++ e'' :: q2'' ∧
              (∀ x ∈ e''.2.idents, (assocFind x df).isSome = true) ∧
              q1''.length + 1 + tri (rest ++ [(c₀, f₀)]).length ≤ F := by
            right
            refine ⟨q1', e, q2 ++ [(c₀, f₀)], ?_, hready, ?_⟩
            · rw [hrest]
              simp
            · have hlen : (rest ++ [(c₀, f₀)]).length = rest.length + 1 := by simp
              rw [hlen]
              simp only [List.length_cons] at hfuel
              rw [hq1] at hfuel
              simp only [List.length_cons] at hfuel
              omega
          obtain ⟨df', hrun, hP1, hP2, hP3⟩ := ih df (rest ++ [(c₀, f₀)])
            hsrc hagr hsub' hnodup' hcov' hpnone' hfr'
          refine ⟨df', ?_, hP1, hP2, hP3⟩
          show computeAux cnames (F + 1) df ((c₀, f₀) :: rest) = .ok df'
          unfold computeAux
          rw [herr]
          show (if y ∈ cnames then computeAux cnames F df (rest ++ [(c₀, f₀)])
              else .error (.undefinedName y)) = .ok df'
          rw [if_pos hyc]
          exact hrun

/-- C5: for documents whose formulas reference only existing columns and
contain no dependency cycle (witnessed by a topological order `ord` of the
formula map along which the canonical evaluation `buildCanonical`
succeeds — the claim presupposes evaluation produces a DerivedTable), the
result of `compute` is independent of the insertion order of the formula
map: two documents sharing source data and row index whose computed
columns are permutations of each other both evaluate successfully, to
frames with identical columns, and every `column(name)` read agrees. -/
theorem c5_order_independence (doc1 doc2 : Doc)
    (ord : List (String × Formula)) (dfC : DF)
    (hsrc2 : doc2.source = doc1.source) (hidx2 : doc2.index = doc1.index)
    (hperm1 : List.Perm doc1.computed ord)
    (hperm2 : List.Perm doc2.computed ord)
    (hnodupC1 : (keysOf doc1.computed).Nodup)
    (hdisj : ∀ c ∈ keysOf ord, c ∉ keysOf doc1.source)
    (htopo : topoOk (keysOf doc1.source) [] ord = true)
    (hbuild : buildCanonical doc1.source ord = .ok dfC) :
    ∃ df1 df2, doc1.compute = .ok df1 ∧ doc2.compute = .ok df2 ∧
      (∀ n, assocFind n df1 = assocFind n df2) ∧
      (∀ n, doc1.column n = doc2.column n) := by
  have hOrdNodup : (keysOf ord).Nodup := (hperm1.map Prod.fst).nodup hnodupC1
  have hfresh : ∀ c ∈ keysOf ord, assocFind c doc1.source = none := fun c hc =>
    assocFind_eq_none.mpr (hdisj c hc)
  obtain ⟨bcA, bcB, bcC⟩ := buildCanonical_spec ord doc1.source dfC hOrdNodup hfresh hbuild
  have runDoc : ∀ computed : List (String × Formula), List.Perm computed ord →
      (keysOf computed).Nodup →
      ∃ df', computeAux (keysOf computed) (computed.length ^ 2 + 1) doc1.source computed =
          .ok df' ∧ ∀ n, assocFind n df' = assocFind n dfC := by
    intro computed hperm hnodup
    have hcn : ∀ c, c ∈ keysOf computed ↔ c ∈ keysOf ord :=
      fun c => (hperm.map Prod.fst).mem_iff
    have hsrcP : ∀ n ∈ keysOf doc1.source, (assocFind n doc1.source).isSome = true :=
      fun n hn => assocFind_isSome.mpr hn
    have hagr0 : ∀ n, (assocFind n doc1.source).isSome = true →
        assocFind n doc1.source = assocFind n dfC :=
      fun n hn => (bcA n hn).symm
    have hsub0 : ∀ p ∈ computed, p ∈ ord := fun p hp => hperm.mem_iff.mp hp
    have hcov0 : ∀ p ∈ ord, p.1 ∉ keysOf computed →
        (assocFind p.1 doc1.source).isSome = true := by
      intro p hp hnp
      exact absurd ((hcn p.1).mpr (List.mem_map_of_mem Prod.fst hp)) hnp
    have hpnone0 : ∀ p ∈ computed, assocFind p.1 doc1.source = none := by
      intro p hp
      exact assocFind_eq_none.mpr
        (hdisj p.1 (List.mem_map_of_mem Prod.fst (hperm.mem_iff.mp hp)))
    have hfr0 : computed = [] ∨ ∃ q1 e q2, computed = q1 ++ e :: q2 ∧
        (∀ x ∈ e.2.idents, (assocFind x doc1.source).isSome = true) ∧
        q1.length + 1 + tri computed.length ≤ computed.length ^ 2 + 1 := by
      rcases eq_or_ne computed [] with h | h
      · exact Or.inl h
      · right
        obtain ⟨e, he, hready⟩ := existsReady doc1.source (keysOf doc1.source) hsrcP
          ord [] hOrdNodup htopo (by simp) computed hsub0 h hcov0
        obtain ⟨s, t, hst⟩ := List.append_of_mem he
        refine ⟨s, e, t, hst, hready, ?_⟩
        have hlen : computed.length = s.length + 1 + t.length := by
          rw [hst]
          simp
          omega
        have := tri_bound computed.length
        omega
    obtain ⟨df', hrun, hP1, hP2, hP3⟩ := computeAuxOk (keysOf computed)
      (keysOf doc1.source) ord dfC hOrdNodup htopo hcn bcC
      (computed.length ^ 2 + 1) doc1.source computed
      hsrcP hagr0 hsub0 hnodup hcov0 hpnone0 hfr0
    refine ⟨df', hrun, ?_⟩
    intro n
    cases h1 : assocFind n df' with
    | some c =>
      rw [← h1]
      exact hP2 n (by rw [h1]; rfl)
    | none =>
      cases hC : assocFind n dfC with
      | none => rfl
      | some c =>
        exfalso
        rcases bcB n (by rw [hC]; rfl) with h | h
        · have := hP1 n (assocFind_isSome.mp h)
          rw [h1] at this
          simp at this
        · simp only [keysOf, List.mem_map] at h
          obtain ⟨p, hp, hp1⟩ := h
          have := hP3 p hp
          rw [hp1, h1] at this
          simp at this
  have hnodupC2 : (keysOf doc2.computed).Nodup :=
    (hperm2.map Prod.fst).symm.nodup hOrdNodup
  obtain ⟨df1, hrun1, heq1⟩ := runDoc doc1.computed hperm1 hnodupC1
  obtain ⟨df2, hrun2, heq2⟩ := runDoc doc2.computed hperm2 hnodupC2
  have hc1 : doc1.compute = .ok df1 := hrun1
  have hc2 : doc2.compute = .ok df2 := by
    unfold Doc.compute
    rw [show doc2.source = doc1.source from hsrc2]
    exact hrun2
  have heq : ∀ n, assocFind n df1 = assocFind n df2 := by
    intro n
    rw [heq1 n, heq2 n]
  refine ⟨df1, df2, hc1, hc2, heq, ?_⟩
  intro n
  unfold Doc.column
  rw [hc1, hc2, hidx2]
  show (match assocFind n df1 with
      | some c => Except.ok (List.map (fun r => (r, c.cells r)) doc1.index)
      | none => Except.error DErr.notFound) =
    (match assocFind n df2 with
      | some c => Except.ok (List.map (fun r => (r, c.cells r)) doc1.index)
      | none => Except.error DErr.notFound)
  rw [heq n]

/-- C5 witness: `docP1` and `docP2` declare the computed columns `quad`
and `twice` in the two possible orders; both evaluate and agree on every
column read. -/
theorem c5_order_independence_witness :
    ∃ df1 df2, docP1.compute = .ok df1 ∧ docP2.compute = .ok df2 ∧
      (∀ n, assocFind n df1 = assocFind n df2) ∧
      (∀ n, docP1.column n = docP2.column n) := by
  obtain ⟨dfC, hbuild⟩ : ∃ d, buildCanonical docP1.source ordP = .ok d := ⟨_, rfl⟩
  exact c5_order_independence docP1 docP2 ordP dfC rfl rfl (by decide) (by decide)
    (by decide) (by decide) (by decide) hbuild
